import Mathlib

/-!
# Metadata sections of the HDF5 backend

A shallow embedding of `src/hdf5/SectionHDF5.cpp` (child sections, properties,
links) over a value model of the container's group primitives, followed by the
properties proved about it.

Conventions of the embedding:

* a `Group` value is the content of a group of the container; a C++ `Group`
  handle that a method opens, changes and drops is modelled by reading the
  content (`openGroup`), computing the new content and writing it back under
  the same name (`store`);
* a method that may change the storage returns the section after the call next
  to its result; a method that may throw returns an `Except Exception`;
* a handle in a result carries the content that the object it refers to has
  when the call returns; in particular the member `parent_section` of the child
  that `createSection` returns is a handle on the section the call was made on
  (`shared_from_this()`), so it carries that section as it is after the call,
  with the new child in it;
* `util::createId` draws from a stream `ids : Nat → String` of random suffixes
  with the position `next` of the next one; the retry loop of the minting code
  takes a bound `fuel` on its number of iterations and yields `none` when the
  bound is used up.
-/

namespace nix.hdf5

/-! ## Storage primitives -/

/-- Exceptions that the modelled code can raise. -/
inductive Exception where
  /-- The `std::runtime_error` thrown by `SectionHDF5::createProperty`. -/
  | runtime_error (what : String)
  /-- An error of the container layer (a missing group, an index out of range). -/
  | H5Error (what : String)
  deriving DecidableEq, Repr

/-- Modelled from the spec: the class `Group` (Group.hpp/Group.cpp are not part
of the sources at hand). Section 6 of the spec lists the primitives the section
code consumes: named hierarchical groups with string attributes. A group holds
its attributes and its named objects in storage (insertion) order; the section
code only ever stores groups below a group, so every object is a group. -/
inductive Group where
  | mk (attrs : List (String × String)) (objects : List (String × Group)) : Group

namespace Group

/-- Attribute table of a group. -/
def attrs : Group → List (String × String)
  | mk a _ => a

/-- Named objects of a group, in storage order. -/
def objects : Group → List (String × Group)
  | mk _ o => o

/-- A freshly created group: no attributes, no objects. -/
def empty : Group := mk [] []

/-- Names of the objects of a group, in storage order. -/
def names (g : Group) : List String := g.objects.map Prod.fst

/-- Modelled from the spec: `hasObject(name)`, is there an object called `name`. -/
def hasObject (g : Group) (name : String) : Bool :=
  g.objects.any (fun o => o.1 == name)

/-- Modelled from the spec: `hasGroup(name)`; every object of the model is a group. -/
def hasGroup (g : Group) (name : String) : Bool :=
  g.hasObject name

/-- Modelled from the spec: `objectCount()`. -/
def objectCount (g : Group) : Nat := g.objects.length

/-- Modelled from the spec: `objectName(index)`, the name of the object at a
position of the storage order; an index out of range is an error. -/
def objectName (g : Group) (index : Nat) : Except Exception String :=
  match g.objects.get? index with
  | some o => .ok o.1
  | none => .error (.H5Error "object index out of range")

/-- Content of the object called `name` (the first one in storage order). -/
def find? (g : Group) (name : String) : Option Group :=
  (g.objects.find? (fun o => o.1 == name)).map Prod.snd

/-- Modelled from the spec: `openGroup(name, createIfMissing)`. The result is the
content of the opened group together with the parent group after the call: the
parent gains an empty group at the end of its storage order when the group was
missing and `create` is set; a missing group without `create` is an error. -/
def openGroup (g : Group) (name : String) (create : Bool) : Except Exception (Group × Group) :=
  match g.find? name with
  | some c => .ok (c, g)
  | none =>
    if create then .ok (empty, mk g.attrs (g.objects ++ [(name, empty)]))
    else .error (.H5Error ("Unable to open group with name " ++ name))

/-- Replace the content of the first object called `name`. -/
def storeIn (name : String) (c : Group) : List (String × Group) → List (String × Group)
  | [] => []
  | o :: os => if o.1 == name then (o.1, c) :: os else o :: storeIn name c os

/-- Write the content `c`, reached and changed through an open handle, back to
the object called `name`. -/
def store (g : Group) (name : String) (c : Group) : Group :=
  mk g.attrs (storeIn name c g.objects)

/-- Modelled from the spec: `removeGroup(name)`, unlink the object called `name`
with everything below it. -/
def removeGroup (g : Group) (name : String) : Group :=
  mk g.attrs (g.objects.eraseP (fun o => o.1 == name))

/-- Modelled from the spec: `getAttr(name, value)`; `none` stands for the call
that returns false and leaves `value` untouched. -/
def getAttr (g : Group) (name : String) : Option String :=
  g.attrs.lookup name

/-- Modelled from the spec: `hasAttr(name)`. -/
def hasAttr (g : Group) (name : String) : Bool :=
  (g.getAttr name).isSome

/-- Modelled from the spec: `setAttr(name, value)`, create or overwrite. -/
def setAttr (g : Group) (name value : String) : Group :=
  mk ((name, value) :: g.attrs.filter (fun a => a.1 != name)) g.objects

/-- Modelled from the spec: `removeAttr(name)`. -/
def removeAttr (g : Group) (name : String) : Group :=
  mk (g.attrs.filter (fun a => a.1 != name)) g.objects

/-- The pattern `string v; g.getAttr(name, v);` of the sources: `v` stays empty
when the attribute is absent. -/
def getAttrOrEmpty (g : Group) (name : String) : String :=
  (g.getAttr name).getD ""

end Group

/-- Modelled from the spec: `util::createId(prefix)`, "prefix + random suffix":
the candidate is the prefix followed by the next suffix of the stream; the
result is the candidate and the position after it. -/
def createId (ids : Nat → String) (pfx : String) (next : Nat) : String × Nat :=
  (pfx ++ ids next, next + 1)

/-- The retry loop `while (grp.hasObject(new_id)) new_id = util::createId(..)` of
`createSection` and `createProperty`, with at most `fuel` evaluations of the
loop condition; `none` when the bound is used up. -/
def mintLoop (grp : Group) (ids : Nat → String) (pfx : String) :
    Nat → String → Nat → Option (String × Nat)
  | 0, _, _ => none
  | fuel + 1, new_id, next =>
    if grp.hasObject new_id then
      mintLoop grp ids pfx fuel (createId ids pfx next).1 (createId ids pfx next).2
    else some (new_id, next)

/-! ## Properties -/

/-- Modelled from the spec: the backend object `PropertyHDF5` (PropertyHDF5.cpp
is not part of the sources at hand): the id it was opened under and the content
of its group, which holds the attribute `name`. -/
structure PropertyHDF5 where
  entity_id : String
  entity_group : Group

/-- The handle `Property`: `none` is the empty handle. -/
abbrev Property := Option PropertyHDF5

namespace PropertyHDF5

/-- Modelled from the spec: constructor `PropertyHDF5(file, group, id)`. -/
def init (group : Group) (id : String) : PropertyHDF5 :=
  PropertyHDF5.mk id group

/-- Modelled from the spec: `id()`. -/
def id (p : PropertyHDF5) : String := p.entity_id

/-- Modelled from the spec: getter `name()`, the attribute `name` of the group. -/
def name (p : PropertyHDF5) : String := p.entity_group.getAttrOrEmpty "name"

/-- Modelled from the spec: setter `name(string)`. -/
def setName (p : PropertyHDF5) (name : String) : PropertyHDF5 :=
  PropertyHDF5.mk p.entity_id (p.entity_group.setAttr "name" name)

end PropertyHDF5

/-! ## Sections -/

/-- The backend object `SectionHDF5`: the id and the parent handle it was
constructed with (members `entity_id`, `parent_section`) and the content of its
group `group()`. The members `property_group` and `section_group` are handles
into that group and are read from it. The parent handle refers to the parent
object; its value is the state of that object when the call that produced this
handle returned. -/
inductive SectionHDF5 where
  | mk (entity_id : String) (parent_section : Option SectionHDF5) (entity_group : Group) : SectionHDF5

/-- The handle `Section`: `none` is the empty handle `Section()`. -/
abbrev Section := Option SectionHDF5

namespace SectionHDF5

/-- Getter `id()` of the entity base class. -/
def id : SectionHDF5 → String
  | mk i _ _ => i

/-- Translation of `SectionHDF5::parent` (lines 117-119). -/
def parent : SectionHDF5 → Section
  | mk _ p _ => p

/-- Accessor `group()` of the entity base class. -/
def group : SectionHDF5 → Group
  | mk _ _ g => g

/-- The same object with a new content of `group()`. -/
def withGroup (self : SectionHDF5) (g : Group) : SectionHDF5 :=
  mk self.id self.parent g

/-- The same object seen when the object behind its handle `parent_section` has
the state `parent`. -/
def withParent (self : SectionHDF5) (parent : Section) : SectionHDF5 :=
  mk self.id parent self.group

/-- Member `property_group`: the group `properties` below `group()`. -/
def property_group (self : SectionHDF5) : Group :=
  (self.group.find? "properties").getD Group.empty

/-- Member `section_group`: the group `sections` below `group()`. -/
def section_group (self : SectionHDF5) : Group :=
  (self.group.find? "sections").getD Group.empty

/-- Write a new content of `property_group` through to `group()`. -/
def withPropertyGroup (self : SectionHDF5) (pg : Group) : SectionHDF5 :=
  self.withGroup (self.group.store "properties" pg)

/-- Write a new content of `section_group` through to `group()`. -/
def withSectionGroup (self : SectionHDF5) (sg : Group) : SectionHDF5 :=
  self.withGroup (self.group.store "sections" sg)

/-- Translation of the constructor `SectionHDF5(file, parent, group, id)`
(lines 33-39): both sub-groups are opened with the default `create = true` of
`openGroup`, so they are created in `group` when missing. -/
def initWithParent (parent : Section) (group : Group) (id : String) : Except Exception SectionHDF5 :=
  match group.openGroup "properties" true with
  | .error e => .error e
  | .ok (_, group) =>
    match group.openGroup "sections" true with
    | .error e => .error e
    | .ok (_, group) => .ok (mk id parent group)

/-- Translation of the constructor `SectionHDF5(file, group, id)` (lines 27-30):
delegates with `nullptr` as parent. -/
def init (group : Group) (id : String) : Except Exception SectionHDF5 :=
  initWithParent none group id

/-- Modelled from the spec: getter `name()` of `NamedEntityHDF5`. -/
def name (self : SectionHDF5) : String := self.group.getAttrOrEmpty "name"

/-- Modelled from the spec: getter `type()` of `NamedEntityHDF5`. -/
def type (self : SectionHDF5) : String := self.group.getAttrOrEmpty "type"

/-- Modelled from the spec: setter `name(string)` of `NamedEntityHDF5`. -/
def setName (self : SectionHDF5) (name : String) : SectionHDF5 :=
  self.withGroup (self.group.setAttr "name" name)

/-- Modelled from the spec: setter `type(string)` of `NamedEntityHDF5`. -/
def setType (self : SectionHDF5) (type : String) : SectionHDF5 :=
  self.withGroup (self.group.setAttr "type" type)

/-! ### Child sections (lines 127-197) -/

/-- Translation of `SectionHDF5::sectionCount`. -/
def sectionCount (self : SectionHDF5) : Nat :=
  self.section_group.objectCount

/-- Translation of `SectionHDF5::hasSection`. -/
def hasSection (self : SectionHDF5) (id : String) : Bool :=
  self.section_group.hasGroup id

/-- Translation of `SectionHDF5::getSection(const string &id)` (lines 137-146). -/
def getSection (self : SectionHDF5) (id : String) : Except Exception Section × SectionHDF5 :=
  if self.section_group.hasGroup id then
    match self.section_group.openGroup id false with
    | .error e => (.error e, self)
    | .ok (grp, section_group) =>
      match init grp id with
      | .error e => (.error e, self.withSectionGroup section_group)
      | .ok tmp => (.ok (some tmp), self.withSectionGroup (section_group.store id tmp.group))
  else
    (.ok none, self)

/-- Translation of `SectionHDF5::getSection(size_t index)` (lines 149-153). -/
def getSectionAt (self : SectionHDF5) (index : Nat) : Except Exception Section × SectionHDF5 :=
  match self.section_group.objectName index with
  | .error e => (.error e, self)
  | .ok id => self.getSection id

/-- Loop of `SectionHDF5::sections` (lines 160-166) from index `i` with `n`
iterations to go. -/
def sectionsLoop : Nat → Nat → SectionHDF5 → List SectionHDF5 → Except Exception (List SectionHDF5) × SectionHDF5
  | 0, _, self, secs => (.ok secs, self)
  | n + 1, i, self, secs =>
    match self.section_group.objectName i with
    | .error e => (.error e, self)
    | .ok id =>
      match self.section_group.openGroup id false with
      | .error e => (.error e, self)
      | .ok (grp, section_group) =>
        match init grp id with
        | .error e => (.error e, self.withSectionGroup section_group)
        | .ok tmp =>
          sectionsLoop n (i + 1) (self.withSectionGroup (section_group.store id tmp.group))
            (secs ++ [tmp])

/-- Translation of `SectionHDF5::sections` (lines 156-169). -/
def sections (self : SectionHDF5) : Except Exception (List SectionHDF5) × SectionHDF5 :=
  sectionsLoop self.section_group.objectCount 0 self []

/-- Translation of `SectionHDF5::createSection` (lines 172-187). The handle
`parent` of line 179 is a handle on `this`, not a copy of it: the constructor
keeps it as `parent_section` of the child, and when the call returns, the
object behind it is the section after the call (`this` with the new child), so
that is what `parent()` of the returned child shows. -/
def createSection (self : SectionHDF5) (name type : String) (ids : Nat → String) (fuel next : Nat) :
    Option (Except Exception Section × SectionHDF5 × Nat) :=
  match mintLoop self.section_group ids "section" fuel (createId ids "section" next).1 (createId ids "section" next).2 with
  | none => none
  | some (new_id, next) =>
    let parent : Section := some self
    match self.section_group.openGroup new_id true with
    | .error e => some (.error e, self, next)
    | .ok (grp, section_group) =>
      match initWithParent parent grp new_id with
      | .error e => some (.error e, self.withSectionGroup section_group, next)
      | .ok tmp =>
        let tmp := (tmp.setName name).setType type
        let self' := self.withSectionGroup (section_group.store new_id tmp.group)
        some (.ok (some (tmp.withParent (some self'))), self', next)

/-- Translation of `SectionHDF5::removeSection` (lines 190-197). -/
def removeSection (self : SectionHDF5) (id : String) : Bool × SectionHDF5 :=
  if self.section_group.hasGroup id then
    (true, self.withSectionGroup (self.section_group.removeGroup id))
  else
    (false, self)

/-! ### Properties (lines 206-316) -/

/-- Translation of `SectionHDF5::propertyCount`. -/
def propertyCount (self : SectionHDF5) : Nat :=
  self.property_group.objectCount

/-- Translation of `SectionHDF5::hasProperty`. -/
def hasProperty (self : SectionHDF5) (id : String) : Bool :=
  self.property_group.hasGroup id

/-- Translation of `SectionHDF5::getProperty(const string &id)` (lines 216-225). -/
def getProperty (self : SectionHDF5) (id : String) : Except Exception Property × SectionHDF5 :=
  if self.property_group.hasGroup id then
    match self.property_group.openGroup id false with
    | .error e => (.error e, self)
    | .ok (g, property_group) =>
      (.ok (some (PropertyHDF5.init g id)), self.withPropertyGroup property_group)
  else
    (.ok none, self)

/-- Stored name of the property at index `i` of the property group, as the
loops of `hasPropertyWithName` and `getPropertyByName` read it: the object name
at `i`, the group opened under that name, its attribute `name`. Both calls
succeed for `i < propertyCount()`; `none` stands for a failing call. -/
def propertyAt (self : SectionHDF5) (i : Nat) : Option (String × Group × String) :=
  match self.property_group.objectName i with
  | .error _ => none
  | .ok id =>
    match self.property_group.openGroup id true with
    | .error _ => none
    | .ok (grp, _) => some (id, grp, grp.getAttrOrEmpty "name")

/-- Loop of `SectionHDF5::hasPropertyWithName` (lines 238-249) from index `i`
with `n` iterations to go. -/
def hasPropertyWithNameLoop (self : SectionHDF5) (name : String) : Nat → Nat → Bool
  | 0, _ => false
  | n + 1, i =>
    match self.propertyAt i with
    | none => false
    | some (_, _, other_name) =>
      if other_name == name then true else hasPropertyWithNameLoop self name n (i + 1)

/-- Translation of `SectionHDF5::hasPropertyWithName` (lines 235-252). -/
def hasPropertyWithName (self : SectionHDF5) (name : String) : Bool :=
  hasPropertyWithNameLoop self name self.propertyCount 0

/-- Loop of `SectionHDF5::getPropertyByName` (lines 258-270) from index `i`
with `n` iterations to go. -/
def getPropertyByNameLoop (self : SectionHDF5) (name : String) : Nat → Nat → Property
  | 0, _ => none
  | n + 1, i =>
    match self.propertyAt i with
    | none => none
    | some (id, grp, other_name) =>
      if other_name == name then some (PropertyHDF5.init grp id)
      else getPropertyByNameLoop self name n (i + 1)

/-- Translation of `SectionHDF5::getPropertyByName` (lines 255-273). -/
def getPropertyByName (self : SectionHDF5) (name : String) : Property :=
  getPropertyByNameLoop self name self.propertyCount 0

/-- Translation of `SectionHDF5::createProperty` (lines 291-306). -/
def createProperty (self : SectionHDF5) (name : String) (ids : Nat → String) (fuel next : Nat) :
    Option (Except Exception Property × SectionHDF5 × Nat) :=
  if self.hasPropertyWithName name then
    some (.error (.runtime_error ("Try to create a property with existing name: " ++ name)),
      self, next)
  else
    match mintLoop self.property_group ids "property" fuel (createId ids "property" next).1 (createId ids "property" next).2 with
    | none => none
    | some (new_id, next) =>
      match self.property_group.openGroup new_id true with
      | .error e => some (.error e, self, next)
      | .ok (grp, property_group) =>
        let tmp := (PropertyHDF5.init grp new_id).setName name
        some (.ok (some tmp),
          self.withPropertyGroup (property_group.store new_id tmp.entity_group), next)

/-- Translation of `SectionHDF5::removeProperty` (lines 309-316). -/
def removeProperty (self : SectionHDF5) (id : String) : Bool × SectionHDF5 :=
  if self.property_group.hasObject id then
    (true, self.withPropertyGroup (self.property_group.removeGroup id))
  else
    (false, self)

end SectionHDF5

/-! ## Well-formed sections -/

/-- The group of a constructed section holds both sub-groups (the constructor
opens them with `create = true`). -/
def Group.realized (g : Group) : Bool :=
  g.hasGroup "properties" && g.hasGroup "sections"

/-- Storage invariant of a section: its group holds both sub-groups, the object
names inside each of the two are pairwise distinct (a group cannot hold two
links of one name), and every child section has been constructed. -/
def SectionHDF5.WF (self : SectionHDF5) : Prop :=
  self.group.realized = true ∧ self.property_group.names.Nodup ∧
    self.section_group.names.Nodup ∧ ∀ o ∈ self.section_group.objects, o.2.realized = true

instance SectionHDF5.decidableWF (self : SectionHDF5) : Decidable self.WF := by
  unfold SectionHDF5.WF
  infer_instance

/-- Stored name of a property group object: its attribute `name`, read the way
the name loops read it. -/
def Group.storedName (o : String × Group) : String := o.2.getAttrOrEmpty "name"

/-- Stored names of the properties of a property group, in storage order. -/
def Group.storedNames (pg : Group) : List String := pg.objects.map Group.storedName

/-! ## Call sequences on one section -/

/-- A call of the property interface of a section. -/
inductive PropertyCall where
  | createProperty (name : String)
  | removeProperty (id : String)

/-- Run a sequence of property calls on a section, drawing ids from `ids`; a
call of `createProperty` that raises leaves the section as it is and the run
goes on. `none` when a minting loop uses up its bound `fuel`. -/
def runPropertyCalls (ids : Nat → String) (fuel : Nat) :
    List PropertyCall → SectionHDF5 → Nat → Option (SectionHDF5 × Nat)
  | [], self, next => some (self, next)
  | .createProperty name :: rest, self, next =>
    match self.createProperty name ids fuel next with
    | none => none
    | some (_, self', next') => runPropertyCalls ids fuel rest self' next'
  | .removeProperty id :: rest, self, next =>
    runPropertyCalls ids fuel rest (self.removeProperty id).2 next

/-! ## Sections below a section -/

mutual
/-- The sections stored in a group of sections (a `sections` sub-group or the
root group of the file), each followed by the sections below it: depth first,
in storage order, as pairs of id and group. -/
def Group.sectionsIn : Group → List (String × Group)
  | Group.mk _ os => Group.sectionsInList os
/-- The sections stored in a list of section objects and below them. -/
def Group.sectionsInList : List (String × Group) → List (String × Group)
  | [] => []
  | (id, g) :: rest => (id, g) :: (Group.sectionsBelow g ++ Group.sectionsInList rest)
/-- The sections strictly below the group of a section: those stored in its
sub-group `sections` and below them. -/
def Group.sectionsBelow : Group → List (String × Group)
  | Group.mk _ os => Group.sectionsBelowList os
/-- Search of the sub-group `sections` among the objects of a section group. -/
def Group.sectionsBelowList : List (String × Group) → List (String × Group)
  | [] => []
  | (n, d) :: rest => if n == "sections" then Group.sectionsIn d else Group.sectionsBelowList rest
end

/-- The handle reached from a section by a chain of `getSection(id)` calls, one
per id of the list; the empty handle as soon as one call does not return a
section. -/
def SectionHDF5.getSectionChain : List String → SectionHDF5 → Section
  | [], self => some self
  | id :: rest, self =>
    match (self.getSection id).1 with
    | .ok (some c) => getSectionChain rest c
    | _ => none

/-! ## The file and links between sections -/

/-- Modelled from the spec: the store a section lives in (`File`; File.cpp is
not part of the sources at hand): the group that holds the root sections,
keyed by id. -/
structure File where
  metadata : Group

/-- Modelled from the spec: `File::findSections(filter)`, the scan of "all
Sections reachable from the given scope": the sections of the file, depth first
in storage order, that pass the filter. The handles are constructed the way
`getSection` constructs them, from the id and the group. -/
def File.findSections (file : File) (filter : SectionHDF5 → Bool) : List SectionHDF5 :=
  (file.metadata.sectionsIn.map (fun o => SectionHDF5.mk o.1 none o.2)).filter filter

/-- Translation of the setter `SectionHDF5::link(const Section &link)`
(lines 72-78). -/
def SectionHDF5.setLink (self : SectionHDF5) (link : Section) : SectionHDF5 :=
  match link with
  | some l => self.withGroup (self.group.setAttr "link" l.id)
  | none =>
    if self.group.hasAttr "link" then self.withGroup (self.group.removeAttr "link") else self

/-- Translation of the getter `SectionHDF5::link() const` (lines 81-98). -/
def SectionHDF5.link (self : SectionHDF5) (file : File) : Section :=
  let id := self.group.getAttrOrEmpty "link"
  let found : List SectionHDF5 :=
    if id != "" then file.findSections (fun s => id == s.id) else []
  if found.length > 0 then found.head? else none

/-- The group of the descendant of a section reached by a chain of ids: child,
grandchild and so on; the argument is the group of the section. -/
def Group.descend : List String → Group → Option Group
  | [], g => some g
  | id :: rest, g =>
    match g.find? "sections" with
    | none => none
    | some d =>
      match d.find? id with
      | none => none
      | some c => Group.descend rest c

/-- Apply a change to the group of the descendant reached by a chain of ids and
write it back along the chain; nothing changes when the chain leads nowhere. -/
def Group.updateAt (m : Group → Group) : List String → Group → Group
  | [], g => m g
  | id :: rest, g =>
    match g.find? "sections" with
    | none => g
    | some d =>
      match d.find? id with
      | none => g
      | some c => g.store "sections" (d.store id (Group.updateAt m rest c))

/-- The group of the section of a file at a path: the id of a root section
followed by the ids of a child, grandchild and so on. -/
def File.groupAt (file : File) : List String → Option Group
  | [] => none
  | id :: rest =>
    match file.metadata.find? id with
    | none => none
    | some g => g.descend rest

/-- The handle of the section of a file at a path. -/
def File.sectionAt (file : File) (path : List String) : Section :=
  (file.groupAt path).map (SectionHDF5.mk (path.getLastD "") none)

/-- The file after a call of the method `m` on the section at a path: the
group of the section after the call is written back to the file. -/
def File.call (file : File) (m : SectionHDF5 → SectionHDF5) : List String → File
  | [] => file
  | id :: rest =>
    match file.metadata.find? id with
    | none => file
    | some g =>
      File.mk (file.metadata.store id
        (g.updateAt (fun x => (m (SectionHDF5.mk ((id :: rest).getLastD "") none x)).group) rest))

/-- The file seen as the group above its root sections: a group whose
sub-group `sections` is the group of the root sections. A path into the file is
a chain of ids from this group. -/
def File.root (file : File) : Group :=
  Group.mk [] [("sections", file.metadata)]

/-- Names of the child sections of a section, read from its group. -/
def Group.childNames (g : Group) : List String :=
  ((g.find? "sections").getD Group.empty).names

/-! ## Example states -/

/-- A stream of suffixes that repeats every suffix once: `_0, _0, _1, _1, ..`. -/
def repeatingIds (n : Nat) : String := "_" ++ toString (n / 2)

/-- The group of a constructed section without children, properties and attributes. -/
def emptySectionGroup : Group :=
  Group.mk [] [("properties", Group.empty), ("sections", Group.empty)]

/-- A root section with two properties `property_1` (name `x`) and `property_2` (name `y`) and
two child sections `section_a` and `section_b`, where `section_a` has a child `section_a1`. -/
def sampleSection : SectionHDF5 :=
  SectionHDF5.mk "root" none
    (Group.mk [("name", "root"), ("type", "t")]
      [("properties", Group.mk []
          [("property_1", Group.mk [("name", "x")] []), ("property_2", Group.mk [("name", "y")] [])]),
       ("sections", Group.mk []
          [("section_a", Group.mk [("name", "A")]
              [("properties", Group.empty),
               ("sections", Group.mk [] [("section_a1", emptySectionGroup)])]),
           ("section_b", emptySectionGroup)])])

/-- The section reached from the empty section by the calls create `x`,
create `x`, create `y`, remove `property_0`, create `x` with the ids of `repeatingIds`. -/
def propertyRunEnd : SectionHDF5 :=
  SectionHDF5.mk "s" none
    (Group.mk []
      [("properties", Group.mk []
          [("property_1", Group.mk [("name", "y")] []), ("property_2", Group.mk [("name", "x")] [])]),
       ("sections", Group.empty)])

/-- A stream of suffixes whose first candidate for a section is `section_a`,
the id of a child of `sampleSection`; the later suffixes are `_1, _2, ..`. -/
def collidingIds (n : Nat) : String := if n = 0 then "_a" else "_" ++ toString n

/-- A section with the children `section_a` and `section_b` where `section_a` has a child that is also
called `section_b`: ids are checked for collisions among siblings only. -/
def collisionSection : SectionHDF5 :=
  SectionHDF5.mk "s" none
    (Group.mk []
      [("properties", Group.empty),
       ("sections", Group.mk []
          [("section_a", Group.mk []
              [("properties", Group.empty),
               ("sections", Group.mk [] [("section_b", emptySectionGroup)])]),
           ("section_b", emptySectionGroup)])])

/-- A file with the root sections `section_r` (children `section_a`, which has
the child `section_a1`, and `section_b`) and `section_q`. -/
def sampleFile : File :=
  File.mk (Group.mk []
    [("section_r", Group.mk [("name", "root")]
        [("properties", Group.empty),
         ("sections", Group.mk []
            [("section_a", Group.mk [("name", "A")]
                [("properties", Group.empty),
                 ("sections", Group.mk [] [("section_a1", emptySectionGroup)])]),
             ("section_b", emptySectionGroup)])]),
     ("section_q", emptySectionGroup)])

/-- A file in which the root section `section_q` has a child with the id
`section_a`, the id of a child of the root section `section_r` as well. -/
def collisionFile : File :=
  File.mk (Group.mk []
    [("section_r", Group.mk []
        [("properties", Group.empty),
         ("sections", Group.mk [] [("section_a", emptySectionGroup)])]),
     ("section_q", Group.mk []
        [("properties", Group.empty),
         ("sections", Group.mk [] [("section_a", emptySectionGroup)])])])

end nix.hdf5

namespace nix.base

/-! ## The handle container -/

namespace ImplContainer

/-- Loop of `ImplContainer::getEntities` (ImplContainer.hpp, lines 66-71) from
index `i` with `n` iterations to go. An entity handle is an `Option`: `none` is
the empty handle, and `candidate.isSome` is the conversion of the handle to
`bool`. -/
def getEntitiesLoop {α : Type} (getEntity : Nat → Option α) (filter : Option α → Bool) :
    Nat → Nat → List (Option α) → List (Option α)
  | 0, _, entities => entities
  | n + 1, i, entities =>
    let candidate := getEntity i
    if candidate.isSome && filter candidate then
      getEntitiesLoop getEntity filter n (i + 1) (entities ++ [candidate])
    else
      getEntitiesLoop getEntity filter n (i + 1) entities

/-- Translation of `ImplContainer::getEntities` (ImplContainer.hpp, lines 54-75).
The count `nT` is a `size_t`; the index `i` stays below it, so no arithmetic of
the loop wraps. -/
def getEntities {α : Type} (getEntity : Nat → Option α) (nT : Nat)
    (filter : Option α → Bool) : List (Option α) :=
  if nT < 1 then []
  else getEntitiesLoop getEntity filter nT 0 []

end ImplContainer

end nix.base

namespace nix.hdf5

/-! ## Data frames -/

/-- Modelled from the spec: the hard errors of the data frame (section 7 of the
spec); the implementation of the data frame is not part of the sources at
hand, only the declarations of `DataFrameHDF5.hpp` are. -/
inductive DataFrameError where
  /-- An unknown column name, a row out of range, a row of the wrong length. -/
  | InvalidReference (what : String)
  /-- A value whose type is not the declared type of its column. -/
  | TypeMismatch (what : String)
  deriving DecidableEq, Repr

/-- Modelled from the spec: `DataType`, the declared element type of a column
(the spec names float64, int32 and text; int64 and bool stand for the other
fixed-width types). -/
inductive DataType where
  | bool
  | int32
  | int64
  | float64
  | text
  deriving DecidableEq, Repr

/-- Modelled from the spec: `Variant`, a typed value. Nothing is computed with
the payload of a value, it is only stored and read back: an integer is its
value, a float64 is its IEEE-754 bit pattern. -/
inductive Variant where
  | bool (b : Bool)
  | int32 (v : Int)
  | int64 (v : Int)
  | float64 (bits : Nat)
  | text (s : String)
  deriving DecidableEq, Repr

/-- Modelled from the spec: the type of a value. -/
def Variant.type : Variant → DataType
  | .bool _ => .bool
  | .int32 _ => .int32
  | .int64 _ => .int64
  | .float64 _ => .float64
  | .text _ => .text

/-- Modelled from the spec: the slot of a type in a zero-extended row. -/
def Variant.zero : DataType → Variant
  | .bool => .bool false
  | .int32 => .int32 0
  | .int64 => .int64 0
  | .float64 => .float64 0
  | .text => .text ""

/-- Modelled from the spec: `Column`, "name (unique within the DataFrame),
declared element DataType, optional unit string". -/
structure Column where
  name : String
  dtype : DataType
  unit : Option String
  deriving DecidableEq, Repr

/-- Modelled from the spec: the state of `DataFrameHDF5` (section 4.3):
the ordered columns, the tracked row count, and the backing dataset, one row
per entry and one slot per column in a row. -/
structure DataFrameHDF5 where
  cols : List Column
  row_count : Nat
  dataset : List (List Variant)

namespace DataFrameHDF5

/-- Modelled from the spec: `createData(columns)`, "builds the packed row layout
from the declared column types/order and allocates a zero-row dataset". -/
def createData (_df : DataFrameHDF5) (cols : List Column) : DataFrameHDF5 :=
  DataFrameHDF5.mk cols 0 []

/-- Modelled from the spec: `columns()`, the schema in creation order. -/
def columns (df : DataFrameHDF5) : List Column := df.cols

/-- Modelled from the spec: `nameToCol(names)`, the column index of every name,
in the order of the names; an unknown name is a hard error. -/
def nameToCol (df : DataFrameHDF5) : List String → Except DataFrameError (List Nat)
  | [] => .ok []
  | name :: rest =>
    match df.cols.findIdx? (fun c => c.name == name) with
    | none => .error (.InvalidReference ("unknown column " ++ name))
    | some i =>
      match nameToCol df rest with
      | .error e => .error e
      | .ok is => .ok (i :: is)

/-- Modelled from the spec: getter `rows()`, "reads the tracked row count". -/
def rows (df : DataFrameHDF5) : Nat := df.row_count

/-- Modelled from the spec: setter `rows(n)`, "resizes the backing store to
exactly `n` rows, truncating or zero-extending as needed". -/
def setRows (df : DataFrameHDF5) (n : Nat) : DataFrameHDF5 :=
  DataFrameHDF5.mk df.cols n
    (df.dataset.take n ++
      List.replicate (n - df.dataset.length) (df.cols.map (fun c => Variant.zero c.dtype)))

/-- Modelled from the spec: do the values type-match the columns, position by
position. -/
def typesMatch (v : List Variant) (cols : List Column) : Bool :=
  (v.zip cols).all (fun p => p.1.type == p.2.dtype)

/-- Modelled from the spec: `writeRow(row, values)`: "`values[i]` must
type-match `columns()[i]`; length mismatch is a hard error"; a row outside
`rows()` is rejected, "writes never implicitly grow it"; a type mismatch is
raised "before any bytes are written". -/
def writeRow (df : DataFrameHDF5) (row : Nat) (v : List Variant) :
    Except DataFrameError DataFrameHDF5 :=
  if row ≥ df.rows then .error (.InvalidReference "row out of range")
  else if v.length ≠ df.cols.length then .error (.InvalidReference "row length")
  else if typesMatch v df.cols then .ok (DataFrameHDF5.mk df.cols df.row_count (df.dataset.set row v))
  else .error (.TypeMismatch "value type")

/-- Modelled from the spec: `readRow(row)`: "reading an out-of-range row is a
hard error, not an empty result". -/
def readRow (df : DataFrameHDF5) (row : Nat) : Except DataFrameError (List Variant) :=
  if row ≥ df.rows then .error (.InvalidReference "row out of range")
  else
    match df.dataset.get? row with
    | none => .error (.InvalidReference "row out of range")
    | some r => .ok r

/-- The slots of a row at a list of column indices, in the order of the
indices. -/
def pick (r : List Variant) : List Nat → Except DataFrameError (List Variant)
  | [] => .ok []
  | i :: rest =>
    match r.get? i with
    | none => .error (.InvalidReference "column out of range")
    | some x =>
      match pick r rest with
      | .error e => .error e
      | .ok xs => .ok (x :: xs)

/-- Modelled from the spec: `readCells(row, names)`: the values of the row in
the named columns, in the order of the names; the row is validated against
`rows()` and the names by `nameToCol`. -/
def readCells (df : DataFrameHDF5) (row : Nat) (names : List String) :
    Except DataFrameError (List Variant) :=
  match df.readRow row with
  | .error e => .error e
  | .ok r =>
    match df.nameToCol names with
    | .error e => .error e
    | .ok is => pick r is

end DataFrameHDF5

/-- The schema `[("t", float64), ("amp", int32)]`. -/
def sampleSchema : List Column :=
  [Column.mk "t" DataType.float64 none, Column.mk "amp" DataType.int32 none]

/-- The data frame after `createData(sampleSchema)` and `rows(3)`. -/
def sampleFrame : DataFrameHDF5 :=
  ((DataFrameHDF5.mk [] 0 []).createData sampleSchema).setRows 3

/-- The row `[2.5, 7]`: 2.5 as a float64 has the bit pattern
`0x4004000000000000`. -/
def sampleRow : List Variant := [Variant.float64 0x4004000000000000, Variant.int32 7]

/-! # Theorems -/

/-! ## Facts about the storage primitives -/

theorem Group.hasObject_iff (g : Group) (n : String) : g.hasObject n = true ↔ n ∈ g.names := by
  simp [Group.hasObject, Group.names, List.any_eq_true]

theorem Group.hasObject_eq_false_iff (g : Group) (n : String) :
    g.hasObject n = false ↔ n ∉ g.names := by
  rw [← Group.hasObject_iff]; simp

theorem Group.find?_isSome (g : Group) (n : String) : (g.find? n).isSome = g.hasObject n := by
  cases g with
  | mk a os =>
    simp only [Group.find?, Group.hasObject, Group.objects, Option.isSome_map']
    induction os with
    | nil => rfl
    | cons o os ih =>
      by_cases h : o.1 == n <;> simp [List.find?_cons, h, ih]

theorem Group.find?_eq_none_iff (g : Group) (n : String) : g.find? n = none ↔ g.hasObject n = false := by
  rw [← Group.find?_isSome]; cases g.find? n <;> simp

theorem Group.find?_of_mem (g : Group) (h : g.names.Nodup) (o : String × Group)
    (ho : o ∈ g.objects) : g.find? o.1 = some o.2 := by
  cases g with
  | mk a os =>
    simp only [Group.find?, Group.objects, Group.names] at *
    induction os with
    | nil => simp at ho
    | cons x xs ih =>
      simp only [List.map_cons, List.nodup_cons] at h
      rcases List.mem_cons.1 ho with rfl | hmem
      · simp
      · have hne : x.1 ≠ o.1 := by
          intro he
          exact h.1 (he ▸ List.mem_map_of_mem Prod.fst hmem)
        simp [List.find?_cons, hne, ih h.2 hmem]

theorem Group.find?_mem (g : Group) (n : String) (c : Group) (h : g.find? n = some c) :
    (n, c) ∈ g.objects := by
  cases g with
  | mk a os =>
    simp only [Group.find?, Group.objects, Option.map_eq_some'] at *
    obtain ⟨o, ho, rfl⟩ := h
    have h1 := List.find?_some ho
    have h2 := List.mem_of_find?_eq_some ho
    simp at h1
    rw [← h1]
    exact h2

theorem Group.openGroup_of_find? (g : Group) (n : String) (c : Group) (b : Bool)
    (h : g.find? n = some c) : g.openGroup n b = .ok (c, g) := by
  simp [Group.openGroup, h]

theorem Group.openGroup_create_new (g : Group) (n : String) (h : g.hasObject n = false) :
    g.openGroup n true = .ok (Group.empty, Group.mk g.attrs (g.objects ++ [(n, Group.empty)])) := by
  rw [← Group.find?_eq_none_iff] at h
  simp [Group.openGroup, h]

theorem Group.openGroup_create_ok (g : Group) (n : String) :
    ∃ c g', g.openGroup n true = .ok (c, g') := by
  cases h : g.find? n with
  | none =>
    exact ⟨Group.empty, Group.mk g.attrs (g.objects ++ [(n, Group.empty)]), by
      simp [Group.openGroup, h]⟩
  | some c => exact ⟨c, g, by simp [Group.openGroup, h]⟩

theorem Group.storeIn_names (n : String) (c : Group) (os : List (String × Group)) :
    (Group.storeIn n c os).map Prod.fst = os.map Prod.fst := by
  induction os with
  | nil => rfl
  | cons o os ih =>
    by_cases h : o.1 == n <;> simp [Group.storeIn, h, ih]

theorem Group.storeIn_length (n : String) (c : Group) (os : List (String × Group)) :
    (Group.storeIn n c os).length = os.length := by
  have := congrArg List.length (Group.storeIn_names n c os)
  simpa using this

theorem Group.store_names (g : Group) (n : String) (c : Group) : (g.store n c).names = g.names := by
  simp [Group.store, Group.names, Group.objects, Group.storeIn_names]

theorem Group.store_attrs (g : Group) (n : String) (c : Group) : (g.store n c).attrs = g.attrs := rfl

theorem Group.store_hasObject (g : Group) (n m : String) (c : Group) :
    (g.store n c).hasObject m = g.hasObject m := by
  have h := Group.store_names g n c
  cases hm : g.hasObject m with
  | true =>
    rw [Group.hasObject_iff] at hm ⊢
    rw [h]; exact hm
  | false =>
    rw [Group.hasObject_eq_false_iff] at hm ⊢
    rw [h]; exact hm

theorem Group.find?_store_same (g : Group) (n : String) (c : Group) (h : g.hasObject n = true) :
    (g.store n c).find? n = some c := by
  cases g with
  | mk a os =>
    simp only [Group.find?, Group.store, Group.objects, Group.hasObject] at *
    induction os with
    | nil => simp at h
    | cons o os ih =>
      by_cases e : o.1 == n
      · simp [Group.storeIn, e]
      · simp only [List.any_cons, e, Bool.false_or] at h
        simp [Group.storeIn, e, List.find?_cons, ih h]

theorem Group.find?_store_other (g : Group) (n m : String) (c : Group) (h : n ≠ m) :
    (g.store n c).find? m = g.find? m := by
  cases g with
  | mk a os =>
    simp only [Group.find?, Group.store, Group.objects]
    induction os with
    | nil => rfl
    | cons o os ih =>
      by_cases e : o.1 == n
      · have e1 : o.1 = n := by simpa using e
        have e2 : ¬ (o.1 = m) := by rw [e1]; exact h
        simp [Group.storeIn, e, List.find?_cons, e1, h]
      · by_cases e3 : o.1 == m
        · simp [Group.storeIn, e, List.find?_cons, e3]
        · have e' : (o.1 == n) = false := by simpa using e
          have e3' : (o.1 == m) = false := by simpa using e3
          simp only [Group.storeIn, e', Bool.false_eq_true, if_false, List.find?_cons, e3']
          exact ih

theorem Group.store_self (g : Group) (n : String) (c : Group) (h : g.find? n = some c) :
    g.store n c = g := by
  cases g with
  | mk a os =>
    simp only [Group.find?, Group.store, Group.objects, Group.attrs] at *
    congr 1
    induction os with
    | nil => rfl
    | cons o os ih =>
      by_cases e : o.1 == n
      · simp only [List.find?_cons, e, Option.map_some', Option.some.injEq] at h
        simp [Group.storeIn, e, ← h]
      · simp only [List.find?_cons, e] at h
        simp [Group.storeIn, e, ih h]

theorem Group.store_missing (g : Group) (n : String) (c : Group) (h : g.hasObject n = false) :
    g.store n c = g := by
  cases g with
  | mk a os =>
    simp only [Group.hasObject, Group.store, Group.objects, Group.attrs] at *
    congr 1
    induction os with
    | nil => rfl
    | cons o os ih =>
      simp only [List.any_cons, Bool.or_eq_false_iff] at h
      simp [Group.storeIn, h.1, ih h.2]

theorem Group.storeIn_append_new (n : String) (c e : Group) (os : List (String × Group))
    (h : n ∉ os.map Prod.fst) : Group.storeIn n c (os ++ [(n, e)]) = os ++ [(n, c)] := by
  induction os with
  | nil => simp [Group.storeIn]
  | cons o os ih =>
    simp only [List.map_cons, List.mem_cons, not_or] at h
    have hne : ¬ (o.1 == n) = true := by
      simp only [beq_iff_eq]; exact fun he => h.1 he.symm
    simp [Group.storeIn, hne, ih h.2]

/-! ## Facts about the minting loop -/

theorem mintLoop_fresh (grp : Group) (ids : Nat → String) (pfx : String) (fuel : Nat) (c : String)
    (n : Nat) (r : String × Nat) (h : mintLoop grp ids pfx fuel c n = some r) :
    grp.hasObject r.1 = false := by
  induction fuel generalizing c n with
  | zero => simp [mintLoop] at h
  | succ fuel ih =>
    simp only [mintLoop] at h
    split at h
    · exact ih _ _ h
    · cases h; simpa using ‹¬ grp.hasObject c = true›

theorem mintLoop_isSome (grp : Group) (ids : Nat → String) (pfx : String) (fuel n : Nat)
    (h : ∃ k, k < fuel ∧ grp.hasObject (createId ids pfx (n + k)).1 = false) :
    (mintLoop grp ids pfx fuel (createId ids pfx n).1 (createId ids pfx n).2).isSome = true := by
  induction fuel generalizing n with
  | zero => obtain ⟨k, hk, _⟩ := h; omega
  | succ fuel ih =>
    obtain ⟨k, hk, hfresh⟩ := h
    simp only [createId] at hfresh
    simp only [mintLoop, createId]
    split
    · rename_i hcol
      cases k with
      | zero => simp [hcol] at hfresh
      | succ k =>
        apply ih (n + 1)
        refine ⟨k, by omega, ?_⟩
        have e : n + 1 + k = n + (k + 1) := by omega
        rw [e]; exact hfresh
    · rfl

theorem createId_ne_empty (ids : Nat → String) (pfx : String) (n : Nat) (h : pfx ≠ "") :
    (createId ids pfx n).1 ≠ "" := by
  intro e
  apply h
  have := congrArg String.data e
  simp only [createId, String.data_append, List.append_eq_nil] at this
  exact String.ext this.1

/-- An id that leaves the minting loop is the initial candidate or a candidate
drawn by `createId`. -/
theorem mintLoop_candidate (grp : Group) (ids : Nat → String) (pfx : String) (fuel : Nat)
    (c : String) (n : Nat) (r : String × Nat) (h : mintLoop grp ids pfx fuel c n = some r) :
    r.1 = c ∨ ∃ k, r.1 = (createId ids pfx k).1 := by
  induction fuel generalizing c n with
  | zero => simp [mintLoop] at h
  | succ fuel ih =>
    simp only [mintLoop] at h
    split at h
    · rcases ih _ _ h with h1 | h1
      · exact Or.inr ⟨n, h1⟩
      · exact Or.inr h1
    · cases h; exact Or.inl rfl

/-! ## Facts about the section object -/

namespace SectionHDF5

@[simp] theorem withGroup_group (self : SectionHDF5) (g : Group) : (self.withGroup g).group = g := rfl

@[simp] theorem withGroup_id (self : SectionHDF5) (g : Group) : (self.withGroup g).id = self.id := rfl

@[simp] theorem withGroup_parent (self : SectionHDF5) (g : Group) :
    (self.withGroup g).parent = self.parent := rfl

theorem withGroup_self (self : SectionHDF5) : self.withGroup self.group = self := by
  cases self; rfl

theorem property_group_of_find? (self : SectionHDF5) (pg : Group)
    (h : self.group.find? "properties" = some pg) : self.property_group = pg := by
  simp [property_group, h]

theorem section_group_of_find? (self : SectionHDF5) (sg : Group)
    (h : self.group.find? "sections" = some sg) : self.section_group = sg := by
  simp [section_group, h]

theorem find?_properties (self : SectionHDF5) (h : self.group.hasGroup "properties" = true) :
    self.group.find? "properties" = some self.property_group := by
  have := Group.find?_isSome self.group "properties"
  rw [Group.hasGroup] at h
  rw [h] at this
  cases e : self.group.find? "properties" with
  | none => simp [e] at this
  | some c => simp [property_group, e]

theorem find?_sections (self : SectionHDF5) (h : self.group.hasGroup "sections" = true) :
    self.group.find? "sections" = some self.section_group := by
  have := Group.find?_isSome self.group "sections"
  rw [Group.hasGroup] at h
  rw [h] at this
  cases e : self.group.find? "sections" with
  | none => simp [e] at this
  | some c => simp [section_group, e]

theorem withPropertyGroup_property_group (self : SectionHDF5) (pg : Group)
    (h : self.group.hasGroup "properties" = true) :
    (self.withPropertyGroup pg).property_group = pg := by
  simp [withPropertyGroup, property_group, Group.find?_store_same _ _ _ h]

theorem withPropertyGroup_section_group (self : SectionHDF5) (pg : Group) :
    (self.withPropertyGroup pg).section_group = self.section_group := by
  simp [withPropertyGroup, section_group, Group.find?_store_other]

theorem withSectionGroup_section_group (self : SectionHDF5) (sg : Group)
    (h : self.group.hasGroup "sections" = true) :
    (self.withSectionGroup sg).section_group = sg := by
  simp [withSectionGroup, section_group, Group.find?_store_same _ _ _ h]

theorem withSectionGroup_property_group (self : SectionHDF5) (sg : Group) :
    (self.withSectionGroup sg).property_group = self.property_group := by
  simp [withSectionGroup, property_group, Group.find?_store_other]

theorem withPropertyGroup_self (self : SectionHDF5) (h : self.group.hasGroup "properties" = true) :
    self.withPropertyGroup self.property_group = self := by
  rw [withPropertyGroup, Group.store_self _ _ _ (find?_properties self h), withGroup_self]

theorem withSectionGroup_self (self : SectionHDF5) (h : self.group.hasGroup "sections" = true) :
    self.withSectionGroup self.section_group = self := by
  rw [withSectionGroup, Group.store_self _ _ _ (find?_sections self h), withGroup_self]

theorem withPropertyGroup_missing (self : SectionHDF5) (pg : Group)
    (h : self.group.hasGroup "properties" = false) : self.withPropertyGroup pg = self := by
  rw [withPropertyGroup, Group.store_missing _ _ _ h, withGroup_self]

theorem withSectionGroup_missing (self : SectionHDF5) (sg : Group)
    (h : self.group.hasGroup "sections" = false) : self.withSectionGroup sg = self := by
  rw [withSectionGroup, Group.store_missing _ _ _ h, withGroup_self]

theorem property_group_of_missing (self : SectionHDF5)
    (h : self.group.hasGroup "properties" = false) : self.property_group = Group.empty := by
  rw [Group.hasGroup, ← Group.find?_eq_none_iff] at h
  simp [property_group, h]

theorem section_group_of_missing (self : SectionHDF5)
    (h : self.group.hasGroup "sections" = false) : self.section_group = Group.empty := by
  rw [Group.hasGroup, ← Group.find?_eq_none_iff] at h
  simp [section_group, h]

end SectionHDF5

/-! ## C1: duplicate names are rejected without effect -/

/-- C1: `createProperty(name)` raises exactly when `hasPropertyWithName(name)`
holds beforehand, for every bound on the minting loop; what it raises is the
`runtime_error` about the existing name; and whenever the call raises, the
section after the call is the section before it (so `propertyCount()`, the ids
and names of the properties and the child sections are as before) and no
candidate id has been drawn. -/
theorem createProperty_raises_iff_duplicate (self : SectionHDF5) (name : String)
    (ids : Nat → String) (fuel next : Nat) :
    ((∃ e st next', self.createProperty name ids fuel next = some (.error e, st, next')) ↔
        self.hasPropertyWithName name = true) ∧
      (self.hasPropertyWithName name = true →
        self.createProperty name ids fuel next =
          some (.error (.runtime_error ("Try to create a property with existing name: " ++ name)),
            self, next)) ∧
      (∀ e st next', self.createProperty name ids fuel next = some (.error e, st, next') →
        st = self ∧ next' = next ∧ st.propertyCount = self.propertyCount ∧
          st.property_group = self.property_group ∧ st.section_group = self.section_group) := by
  have key : self.hasPropertyWithName name = false →
      ∀ e st next', self.createProperty name ids fuel next ≠ some (.error e, st, next') := by
    intro hno e st next' h
    simp only [SectionHDF5.createProperty, hno, Bool.false_eq_true, if_false] at h
    cases hm : mintLoop self.property_group ids "property" fuel (createId ids "property" next).1 (createId ids "property" next).2 with
    | none => simp [hm] at h
    | some r =>
      obtain ⟨c, g', hopen⟩ := Group.openGroup_create_ok self.property_group r.1
      simp [hm, hopen] at h
  have dup : self.hasPropertyWithName name = true →
      self.createProperty name ids fuel next =
        some (.error (.runtime_error ("Try to create a property with existing name: " ++ name)),
          self, next) := by
    intro h
    simp [SectionHDF5.createProperty, h]
  refine ⟨⟨?_, ?_⟩, dup, ?_⟩
  · rintro ⟨e, st, next', h⟩
    cases hh : self.hasPropertyWithName name with
    | true => rfl
    | false => exact absurd h (key hh e st next')
  · intro h
    exact ⟨_, _, _, dup h⟩
  · intro e st next' h
    cases hh : self.hasPropertyWithName name with
    | false => exact absurd h (key hh e st next')
    | true =>
      rw [dup hh] at h
      simp only [Option.some.injEq, Prod.mk.injEq] at h
      obtain ⟨_, rfl, rfl⟩ := h
      exact ⟨rfl, rfl, rfl, rfl, rfl⟩

/-! ## Facts about the name loops -/

theorem Group.getAttr_setAttr_same (g : Group) (n v : String) : (g.setAttr n v).getAttr n = some v := by
  simp [Group.getAttr, Group.setAttr, Group.attrs, List.lookup_cons]

theorem Group.getAttrOrEmpty_setAttr_same (g : Group) (n v : String) :
    (g.setAttr n v).getAttrOrEmpty n = v := by
  simp [Group.getAttrOrEmpty, Group.getAttr_setAttr_same]

theorem Group.objects_setAttr (g : Group) (n v : String) : (g.setAttr n v).objects = g.objects := rfl

namespace SectionHDF5

theorem propertyAt_of_get? (self : SectionHDF5) (hnd : self.property_group.names.Nodup) (i : Nat)
    (o : String × Group) (h : self.property_group.objects.get? i = some o) :
    self.propertyAt i = some (o.1, o.2, Group.storedName o) := by
  have hmem : o ∈ self.property_group.objects := List.get?_mem h
  have hf := Group.find?_of_mem _ hnd o hmem
  simp only [propertyAt, Group.objectName, h, Group.openGroup_of_find? _ _ _ _ hf,
    Group.storedName]

theorem hasPropertyWithNameLoop_eq (self : SectionHDF5) (hnd : self.property_group.names.Nodup)
    (name : String) (n i : Nat) (h : i + n = self.property_group.objects.length) :
    hasPropertyWithNameLoop self name n i =
      (self.property_group.objects.drop i).any (fun o => Group.storedName o == name) := by
  induction n generalizing i with
  | zero =>
    have : self.property_group.objects.length ≤ i := by omega
    simp [hasPropertyWithNameLoop, List.drop_eq_nil_of_le this]
  | succ n ih =>
    have hi : i < self.property_group.objects.length := by omega
    have hget : self.property_group.objects.get? i = some (self.property_group.objects[i]) := by
      simp [List.get?_eq_getElem?, List.getElem?_eq_getElem hi]
    rw [List.drop_eq_getElem_cons hi]
    simp only [hasPropertyWithNameLoop, propertyAt_of_get? self hnd i _ hget, List.any_cons]
    rw [ih (i + 1) (by omega)]
    cases Group.storedName (self.property_group.objects[i]) == name <;> simp

theorem getPropertyByNameLoop_eq (self : SectionHDF5) (hnd : self.property_group.names.Nodup)
    (name : String) (n i : Nat) (h : i + n = self.property_group.objects.length) :
    getPropertyByNameLoop self name n i =
      ((self.property_group.objects.drop i).find? (fun o => Group.storedName o == name)).map
        (fun o => PropertyHDF5.init o.2 o.1) := by
  induction n generalizing i with
  | zero =>
    have : self.property_group.objects.length ≤ i := by omega
    simp [getPropertyByNameLoop, List.drop_eq_nil_of_le this]
  | succ n ih =>
    have hi : i < self.property_group.objects.length := by omega
    have hget : self.property_group.objects.get? i = some (self.property_group.objects[i]) := by
      simp [List.get?_eq_getElem?, List.getElem?_eq_getElem hi]
    rw [List.drop_eq_getElem_cons hi]
    simp only [getPropertyByNameLoop, propertyAt_of_get? self hnd i _ hget, List.find?_cons]
    rw [ih (i + 1) (by omega)]
    cases Group.storedName (self.property_group.objects[i]) == name <;> simp

theorem hasPropertyWithName_eq (self : SectionHDF5) (hnd : self.property_group.names.Nodup)
    (name : String) :
    self.hasPropertyWithName name =
      self.property_group.objects.any (fun o => Group.storedName o == name) := by
  have := hasPropertyWithNameLoop_eq self hnd name self.propertyCount 0
    (by simp [propertyCount, Group.objectCount])
  simpa [hasPropertyWithName] using this

theorem getPropertyByName_eq (self : SectionHDF5) (hnd : self.property_group.names.Nodup)
    (name : String) :
    self.getPropertyByName name =
      (self.property_group.objects.find? (fun o => Group.storedName o == name)).map
        (fun o => PropertyHDF5.init o.2 o.1) := by
  have := getPropertyByNameLoop_eq self hnd name self.propertyCount 0
    (by simp [propertyCount, Group.objectCount])
  simpa [getPropertyByName] using this

theorem hasPropertyWithName_iff_mem (self : SectionHDF5) (hnd : self.property_group.names.Nodup)
    (name : String) :
    self.hasPropertyWithName name = true ↔ name ∈ self.property_group.storedNames := by
  rw [hasPropertyWithName_eq self hnd, List.any_eq_true]
  simp [Group.storedNames]

/-- Shape of a call of `createProperty` that gets past the name check. -/
theorem createProperty_shape (self : SectionHDF5) (name : String) (ids : Nat → String)
    (fuel next : Nat) (r : Except Exception Property) (self' : SectionHDF5) (next' : Nat)
    (hno : self.hasPropertyWithName name = false)
    (h : self.createProperty name ids fuel next = some (r, self', next')) :
    ∃ new_id, mintLoop self.property_group ids "property" fuel (createId ids "property" next).1 (createId ids "property" next).2 =
        some (new_id, next') ∧
      self.property_group.hasObject new_id = false ∧
      r = .ok (some (PropertyHDF5.mk new_id (Group.empty.setAttr "name" name))) ∧
      self' = self.withPropertyGroup (Group.mk self.property_group.attrs
        (self.property_group.objects ++ [(new_id, Group.empty.setAttr "name" name)])) := by
  simp only [createProperty, hno, Bool.false_eq_true, if_false] at h
  cases hm : mintLoop self.property_group ids "property" fuel (createId ids "property" next).1 (createId ids "property" next).2 with
  | none => simp [hm] at h
  | some q =>
    obtain ⟨new_id, n2⟩ := q
    have hfresh := mintLoop_fresh _ _ _ _ _ _ _ hm
    simp only at hfresh
    have hnot : new_id ∉ self.property_group.objects.map Prod.fst := by
      have := (Group.hasObject_eq_false_iff _ _).1 hfresh
      simpa [Group.names] using this
    simp only [hm, Group.openGroup_create_new _ _ hfresh, Option.some.injEq, Prod.mk.injEq] at h
    obtain ⟨h1, h2, h3⟩ := h
    refine ⟨new_id, by rw [h3], hfresh, h1.symm, ?_⟩
    rw [← h2]
    congr 1
    show Group.mk _ (Group.storeIn new_id _ (self.property_group.objects ++ _)) = _
    rw [Group.storeIn_append_new _ _ _ _ hnot]
    rfl

end SectionHDF5

/-! ## C10: lookup by name -/

namespace SectionHDF5

theorem createProperty_ok_not_duplicate (self : SectionHDF5) (name : String) (ids : Nat → String)
    (fuel next : Nat) (tmp : Property) (self' : SectionHDF5) (next' : Nat)
    (h : self.createProperty name ids fuel next = some (.ok tmp, self', next')) :
    self.hasPropertyWithName name = false := by
  cases hh : self.hasPropertyWithName name with
  | false => rfl
  | true => simp [createProperty, hh] at h

theorem names_append_nodup (pg : Group) (hnd : pg.names.Nodup) (new_id : String) (c : Group)
    (hfresh : pg.hasObject new_id = false) :
    (Group.mk pg.attrs (pg.objects ++ [(new_id, c)])).names.Nodup := by
  have := (Group.hasObject_eq_false_iff _ _).1 hfresh
  simp only [Group.names, Group.objects, List.map_append, List.map_cons, List.map_nil] at *
  rw [List.nodup_append]
  refine ⟨hnd, List.nodup_singleton _, ?_⟩
  intro x hx hx'
  simp only [List.mem_singleton] at hx'
  exact this (hx' ▸ hx)

end SectionHDF5

/-- C10: for a well-formed section and every name, `hasPropertyWithName(name)`
holds exactly when `getPropertyByName(name)` is a non-empty handle, which is
exactly when some object of the property group has the stored name `name`
(string equality); a property that `getPropertyByName` returns is the first
object in storage order with that stored name, opened under its object name;
and after a call `createProperty(name)` that returns, `getPropertyByName(name)`
is the property the call returned. -/
theorem getPropertyByName_first_match (self : SectionHDF5) (hwf : self.WF) (name : String) :
    (self.hasPropertyWithName name = true ↔ (self.getPropertyByName name).isSome = true) ∧
    (self.hasPropertyWithName name = true ↔
      ∃ o ∈ self.property_group.objects, Group.storedName o = name) ∧
    (∀ p, self.getPropertyByName name = some p →
      ∃ before o after, self.property_group.objects = before ++ o :: after ∧
        (∀ a ∈ before, Group.storedName a ≠ name) ∧ Group.storedName o = name ∧
        p = PropertyHDF5.init o.2 o.1 ∧ p.name = name ∧
        self.property_group.objectName before.length = .ok p.id) ∧
    (∀ ids fuel next tmp self' next',
      self.createProperty name ids fuel next = some (.ok tmp, self', next') →
        tmp.isSome = true ∧ self'.getPropertyByName name = tmp ∧
          self'.hasPropertyWithName name = true) := by
  obtain ⟨hreal, hnd, -, -⟩ := hwf
  have hprops : self.group.hasGroup "properties" = true := by
    simp only [Group.realized, Bool.and_eq_true] at hreal; exact hreal.1
  refine ⟨?_, ?_, ?_, ?_⟩
  · rw [SectionHDF5.hasPropertyWithName_eq self hnd, SectionHDF5.getPropertyByName_eq self hnd,
      Option.isSome_map', List.find?_isSome, List.any_eq_true]
  · rw [SectionHDF5.hasPropertyWithName_eq self hnd, List.any_eq_true]
    simp
  · intro p hp
    rw [SectionHDF5.getPropertyByName_eq self hnd, Option.map_eq_some'] at hp
    obtain ⟨o, ho, rfl⟩ := hp
    rw [List.find?_eq_some] at ho
    obtain ⟨hpo, before, after, hsplit, hbefore⟩ := ho
    have hname : Group.storedName o = name := by simpa using hpo
    refine ⟨before, o, after, hsplit, ?_, hname, rfl, hname, ?_⟩
    · intro a ha
      have := hbefore a ha
      simpa using this
    · have hg : self.property_group.objects.get? before.length = some o := by
        rw [hsplit, List.get?_eq_getElem?, List.getElem?_append_right (le_refl _)]; simp
      simp only [Group.objectName, hg, PropertyHDF5.init, PropertyHDF5.id]
  · intro ids fuel next tmp self' next' h
    have hno := SectionHDF5.createProperty_ok_not_duplicate self name ids fuel next tmp self' next' h
    obtain ⟨new_id, -, hfresh, hr, hself'⟩ :=
      SectionHDF5.createProperty_shape self name ids fuel next _ self' next' hno h
    have htmp : tmp = some (PropertyHDF5.mk new_id (Group.empty.setAttr "name" name)) := by
      simpa using hr
    have hpg : self'.property_group = Group.mk self.property_group.attrs
        (self.property_group.objects ++ [(new_id, Group.empty.setAttr "name" name)]) := by
      rw [hself', SectionHDF5.withPropertyGroup_property_group _ _ hprops]
    have hnd' : self'.property_group.names.Nodup := by
      rw [hpg]; exact SectionHDF5.names_append_nodup _ hnd _ _ hfresh
    have hnone : ∀ x ∈ self.property_group.objects, ¬ (Group.storedName x == name) = true := by
      have := hno
      rw [SectionHDF5.hasPropertyWithName_eq self hnd] at this
      intro x hx hpx
      have : self.property_group.objects.any (fun o => Group.storedName o == name) = true :=
        List.any_eq_true.2 ⟨x, hx, hpx⟩
      simp_all
    have hnew : Group.storedName (new_id, Group.empty.setAttr "name" name) = name := by
      simp [Group.storedName, Group.getAttrOrEmpty_setAttr_same]
    have hget : self'.getPropertyByName name = tmp := by
      rw [SectionHDF5.getPropertyByName_eq self' hnd', hpg, htmp]
      show Option.map _ (List.find? _ (self.property_group.objects ++ _)) = _
      rw [List.find?_append, List.find?_eq_none.2 hnone]
      simp [hnew, PropertyHDF5.init]
    refine ⟨by simp [htmp], hget, ?_⟩
    rw [SectionHDF5.hasPropertyWithName_eq self' hnd', hpg]
    show List.any (self.property_group.objects ++ _) _ = true
    simp [hnew]

/-- Witness of C10 on the sample section. -/
theorem getPropertyByName_first_match_witness :
    sampleSection.WF ∧ sampleSection.hasPropertyWithName "y" = true ∧
      (sampleSection.getPropertyByName "y").map PropertyHDF5.id = some "property_2" ∧
      sampleSection.hasPropertyWithName "Y" = false ∧
      ((sampleSection.hasPropertyWithName "y" = true ↔
        (sampleSection.getPropertyByName "y").isSome = true)) :=
  ⟨by decide, by decide, by decide, by decide,
    (getPropertyByName_first_match sampleSection (by decide) "y").1⟩

/-! ## C2: property names stay unique -/

namespace SectionHDF5

/-- Invariant of the property group: object names and stored names are each
pairwise distinct. -/
theorem propertyInv_withPropertyGroup (self : SectionHDF5) (pg : Group)
    (h : self.property_group.names.Nodup ∧ self.property_group.storedNames.Nodup)
    (h' : pg.names.Nodup ∧ pg.storedNames.Nodup) :
    (self.withPropertyGroup pg).property_group.names.Nodup ∧
      (self.withPropertyGroup pg).property_group.storedNames.Nodup := by
  cases hreal : self.group.hasGroup "properties" with
  | true => rw [withPropertyGroup_property_group _ _ hreal]; exact h'
  | false => rw [withPropertyGroup_missing _ _ hreal]; exact h

theorem propertyInv_createProperty (self : SectionHDF5) (name : String) (ids : Nat → String)
    (fuel next : Nat) (r : Except Exception Property) (self' : SectionHDF5) (next' : Nat)
    (h : self.property_group.names.Nodup ∧ self.property_group.storedNames.Nodup)
    (hc : self.createProperty name ids fuel next = some (r, self', next')) :
    self'.property_group.names.Nodup ∧ self'.property_group.storedNames.Nodup := by
  cases hdup : self.hasPropertyWithName name with
  | true =>
    simp only [createProperty, hdup, if_true, Option.some.injEq, Prod.mk.injEq] at hc
    obtain ⟨-, rfl, -⟩ := hc
    exact h
  | false =>
    obtain ⟨new_id, -, hfresh, -, rfl⟩ := createProperty_shape self name ids fuel next r self' next' hdup hc
    apply propertyInv_withPropertyGroup self _ h
    refine ⟨names_append_nodup _ h.1 _ _ hfresh, ?_⟩
    have hnot : name ∉ self.property_group.storedNames := by
      rw [← hasPropertyWithName_iff_mem self h.1]; simp [hdup]
    have h2 := h.2
    simp only [Group.storedNames, Group.objects, List.map_append, List.map_cons, List.map_nil] at *
    rw [List.nodup_append]
    refine ⟨h2, List.nodup_singleton _, ?_⟩
    intro x hx hx'
    simp only [List.mem_singleton] at hx'
    subst hx'
    apply hnot
    simpa [Group.storedName, Group.getAttrOrEmpty_setAttr_same] using hx

theorem propertyInv_removeProperty (self : SectionHDF5) (id : String)
    (h : self.property_group.names.Nodup ∧ self.property_group.storedNames.Nodup) :
    (self.removeProperty id).2.property_group.names.Nodup ∧
      (self.removeProperty id).2.property_group.storedNames.Nodup := by
  simp only [removeProperty]
  split
  · apply propertyInv_withPropertyGroup self _ h
    have hsub : (self.property_group.removeGroup id).objects.Sublist self.property_group.objects :=
      List.eraseP_sublist _
    exact ⟨h.1.sublist (hsub.map _), h.2.sublist (hsub.map _)⟩
  · exact h

theorem propertyInv_run (ids : Nat → String) (fuel : Nat) (calls : List PropertyCall)
    (self : SectionHDF5) (next : Nat) (self' : SectionHDF5) (next' : Nat)
    (h : self.property_group.names.Nodup ∧ self.property_group.storedNames.Nodup)
    (hrun : runPropertyCalls ids fuel calls self next = some (self', next')) :
    self'.property_group.names.Nodup ∧ self'.property_group.storedNames.Nodup := by
  induction calls generalizing self next with
  | nil =>
    simp only [runPropertyCalls, Option.some.injEq, Prod.mk.injEq] at hrun
    obtain ⟨rfl, -⟩ := hrun
    exact h
  | cons c rest ih =>
    cases c with
    | createProperty name =>
      simp only [runPropertyCalls] at hrun
      cases hc : self.createProperty name ids fuel next with
      | none => simp [hc] at hrun
      | some q =>
        obtain ⟨r, s1, n1⟩ := q
        simp only [hc] at hrun
        exact ih s1 n1 (propertyInv_createProperty self name ids fuel next r s1 n1 h hc) hrun
    | removeProperty id =>
      simp only [runPropertyCalls] at hrun
      exact ih _ _ (propertyInv_removeProperty self id h) hrun

end SectionHDF5

/-- C2: starting from a section without properties, after every finite sequence
of `createProperty(name)` and `removeProperty(id)` calls that has run (calls
that raise included), the stored names of the properties in the property group
are pairwise distinct, so are their ids, and `propertyCount()` is the number
of distinct stored names. -/
theorem property_names_unique (self : SectionHDF5) (h0 : self.propertyCount = 0)
    (ids : Nat → String) (fuel : Nat) (calls : List PropertyCall) (next : Nat)
    (self' : SectionHDF5) (next' : Nat)
    (hrun : runPropertyCalls ids fuel calls self next = some (self', next')) :
    self'.property_group.storedNames.Nodup ∧ self'.property_group.names.Nodup ∧
      self'.propertyCount = self'.property_group.storedNames.toFinset.card := by
  have hnil : self.property_group.objects = [] := by
    simpa [SectionHDF5.propertyCount, Group.objectCount] using h0
  have hinv : self.property_group.names.Nodup ∧ self.property_group.storedNames.Nodup := by
    simp [Group.names, Group.storedNames, hnil]
  obtain ⟨h1, h2⟩ := SectionHDF5.propertyInv_run ids fuel calls self next self' next' hinv hrun
  refine ⟨h2, h1, ?_⟩
  rw [List.toFinset_card_of_nodup h2]
  simp [SectionHDF5.propertyCount, Group.objectCount, Group.storedNames]

/-- Witness of C2: on an empty section, create `x`, create `x` again (raises),
create `y`, remove the first property, create `x`; the properties `property_1` (name
`y`) and `property_2` (name `x`) remain. -/
theorem property_names_unique_witness :
    propertyRunEnd.property_group.storedNames.Nodup ∧ propertyRunEnd.property_group.names.Nodup ∧
      propertyRunEnd.propertyCount = propertyRunEnd.property_group.storedNames.toFinset.card :=
  property_names_unique (SectionHDF5.mk "s" none emptySectionGroup) (by decide) repeatingIds 4
    [.createProperty "x", .createProperty "x", .createProperty "y",
      .removeProperty "property_0", .createProperty "x"] 0 propertyRunEnd 5 (by rfl)

/-! ## C3: minted ids are fresh -/

namespace SectionHDF5

theorem initWithParent_empty (parent : Section) (id : String) :
    initWithParent parent Group.empty id = .ok (mk id parent emptySectionGroup) := rfl

/-- The child object that `createSection` constructs and returns. -/
theorem createSection_shape (self : SectionHDF5) (name type : String) (ids : Nat → String)
    (fuel next : Nat) (r : Except Exception Section) (self' : SectionHDF5) (next' : Nat)
    (h : self.createSection name type ids fuel next = some (r, self', next')) :
    ∃ new_id, mintLoop self.section_group ids "section" fuel (createId ids "section" next).1 (createId ids "section" next).2 =
        some (new_id, next') ∧
      self.section_group.hasObject new_id = false ∧
      r = .ok (some ((((mk new_id (some self) emptySectionGroup).setName name).setType
        type).withParent (some self'))) ∧
      self' = self.withSectionGroup (Group.mk self.section_group.attrs
        (self.section_group.objects ++
          [(new_id, (((mk new_id (some self) emptySectionGroup).setName name).setType type).group)])) := by
  simp only [createSection] at h
  cases hm : mintLoop self.section_group ids "section" fuel (createId ids "section" next).1 (createId ids "section" next).2 with
  | none => simp [hm] at h
  | some q =>
    obtain ⟨new_id, n2⟩ := q
    have hfresh := mintLoop_fresh _ _ _ _ _ _ _ hm
    simp only at hfresh
    have hnot : new_id ∉ self.section_group.objects.map Prod.fst := by
      have := (Group.hasObject_eq_false_iff _ _).1 hfresh
      simpa [Group.names] using this
    simp only [hm, Group.openGroup_create_new _ _ hfresh, initWithParent_empty,
      Option.some.injEq, Prod.mk.injEq] at h
    obtain ⟨h1, h2, h3⟩ := h
    refine ⟨new_id, by rw [h3], hfresh, by rw [← h1, ← h2], ?_⟩
    rw [← h2]
    congr 1
    show Group.mk _ (Group.storeIn new_id _ (self.section_group.objects ++ _)) = _
    rw [Group.storeIn_append_new _ _ _ _ hnot]
    rfl

theorem realized_withSectionGroup (self : SectionHDF5) (sg : Group) :
    (self.withSectionGroup sg).group.realized = self.group.realized := by
  simp [withSectionGroup, Group.realized, Group.hasGroup, Group.store_hasObject]

theorem realized_withPropertyGroup (self : SectionHDF5) (pg : Group) :
    (self.withPropertyGroup pg).group.realized = self.group.realized := by
  simp [withPropertyGroup, Group.realized, Group.hasGroup, Group.store_hasObject]

theorem hasGroup_sections_of_WF (self : SectionHDF5) (hwf : self.WF) :
    self.group.hasGroup "sections" = true := by
  have := hwf.1
  simp only [Group.realized, Bool.and_eq_true] at this
  exact this.2

theorem hasGroup_properties_of_WF (self : SectionHDF5) (hwf : self.WF) :
    self.group.hasGroup "properties" = true := by
  have := hwf.1
  simp only [Group.realized, Bool.and_eq_true] at this
  exact this.1

theorem WF_withSectionGroup (self : SectionHDF5) (hwf : self.WF) (sg : Group)
    (hnd : sg.names.Nodup) (hch : ∀ o ∈ sg.objects, o.2.realized = true) :
    (self.withSectionGroup sg).WF := by
  refine ⟨?_, ?_, ?_, ?_⟩
  · rw [realized_withSectionGroup]; exact hwf.1
  · rw [withSectionGroup_property_group]; exact hwf.2.1
  · rw [withSectionGroup_section_group _ _ (hasGroup_sections_of_WF self hwf)]; exact hnd
  · rw [withSectionGroup_section_group _ _ (hasGroup_sections_of_WF self hwf)]; exact hch

theorem WF_withPropertyGroup (self : SectionHDF5) (hwf : self.WF) (pg : Group)
    (hnd : pg.names.Nodup) : (self.withPropertyGroup pg).WF := by
  refine ⟨?_, ?_, ?_, ?_⟩
  · rw [realized_withPropertyGroup]; exact hwf.1
  · rw [withPropertyGroup_property_group _ _ (hasGroup_properties_of_WF self hwf)]; exact hnd
  · rw [withPropertyGroup_section_group]; exact hwf.2.2.1
  · rw [withPropertyGroup_section_group]; exact hwf.2.2.2

end SectionHDF5

namespace SectionHDF5

theorem createSection_spec (self : SectionHDF5) (hwf : self.WF) (name type : String)
    (ids : Nat → String) (fuel next : Nat) (r : Except Exception Section) (self' : SectionHDF5)
    (next' : Nat) (h : self.createSection name type ids fuel next = some (r, self', next')) :
    ∃ c, r = .ok (some c) ∧ self.section_group.hasObject c.id = false ∧
      (self.section_group.hasObject (createId ids "section" next).1 = true → c.id ≠ (createId ids "section" next).1) ∧
      self'.section_group.objects = self.section_group.objects ++ [(c.id, c.group)] ∧
      self'.section_group.names.Nodup ∧ self'.WF := by
  have hsec := hasGroup_sections_of_WF self hwf
  obtain ⟨new_id, -, hfresh, rfl, rfl⟩ :=
    createSection_shape self name type ids fuel next r self' next' h
  have hnd := names_append_nodup _ hwf.2.2.1 new_id
    (((mk new_id (some self) emptySectionGroup).setName name).setType type).group hfresh
  refine ⟨_, rfl, hfresh, ?_, ?_, ?_, ?_⟩
  · intro hcol heq
    have heq' : new_id = (createId ids "section" next).1 := heq
    rw [heq', hcol] at hfresh
    exact Bool.noConfusion hfresh
  · rw [withSectionGroup_section_group _ _ hsec]; rfl
  · rw [withSectionGroup_section_group _ _ hsec]; exact hnd
  · apply WF_withSectionGroup self hwf _ hnd
    intro o ho
    rcases List.mem_append.1 ho with ho | ho
    · exact hwf.2.2.2 o ho
    · simp only [List.mem_singleton] at ho
      subst ho
      rfl

/-- The id of a section that `createSection` returns is not the empty string. -/
theorem createSection_id_ne_empty (self : SectionHDF5) (name type : String)
    (ids : Nat → String) (fuel next : Nat) (c : SectionHDF5) (self' : SectionHDF5)
    (next' : Nat) (h : self.createSection name type ids fuel next = some (.ok (some c), self', next')) :
    c.id ≠ "" := by
  obtain ⟨new_id, hm, -, hr, -⟩ :=
    createSection_shape self name type ids fuel next _ self' next' h
  have hc : c = (((mk new_id (some self) emptySectionGroup).setName name).setType
      type).withParent (some self') := by
    simpa using hr
  have hid : c.id = new_id := by rw [hc]; rfl
  rw [hid]
  have hne : ("section" : String) ≠ "" := by decide
  rcases mintLoop_candidate _ _ _ _ _ _ _ hm with h1 | ⟨k, h1⟩
  · simp only at h1
    rw [h1]; exact createId_ne_empty ids "section" next hne
  · simp only at h1
    rw [h1]; exact createId_ne_empty ids "section" k hne

theorem createProperty_spec (self : SectionHDF5) (hwf : self.WF) (name : String)
    (ids : Nat → String) (fuel next : Nat) (p : Property) (self' : SectionHDF5)
    (next' : Nat) (h : self.createProperty name ids fuel next = some (.ok p, self', next')) :
    ∃ q, p = some q ∧ self.property_group.hasObject q.id = false ∧
      (self.property_group.hasObject (createId ids "property" next).1 = true → q.id ≠ (createId ids "property" next).1) ∧
      self'.property_group.objects = self.property_group.objects ++ [(q.id, q.entity_group)] ∧
      self'.property_group.names.Nodup ∧ self'.WF := by
  have hprop := hasGroup_properties_of_WF self hwf
  have hno := createProperty_ok_not_duplicate self name ids fuel next p self' next' h
  obtain ⟨new_id, -, hfresh, hr, rfl⟩ :=
    createProperty_shape self name ids fuel next _ self' next' hno h
  have hp : p = some (PropertyHDF5.mk new_id (Group.empty.setAttr "name" name)) := by
    simpa using hr
  have hnd := names_append_nodup _ hwf.2.1 new_id (Group.empty.setAttr "name" name) hfresh
  refine ⟨_, hp, hfresh, ?_, ?_, ?_, ?_⟩
  · intro hcol heq
    simp only [PropertyHDF5.id] at heq
    rw [heq, hcol] at hfresh
    exact Bool.noConfusion hfresh
  · rw [withPropertyGroup_property_group _ _ hprop]; rfl
  · rw [withPropertyGroup_property_group _ _ hprop]; exact hnd
  · exact WF_withPropertyGroup self hwf _ hnd

theorem createSection_returns (self : SectionHDF5) (hwf : self.WF) (name type : String)
    (ids : Nat → String) (fuel next : Nat)
    (hk : ∃ k, k < fuel ∧ self.section_group.hasObject (createId ids "section" (next + k)).1 = false) :
    ∃ c self' next', self.createSection name type ids fuel next =
      some (.ok (some c), self', next') := by
  have hsome := mintLoop_isSome self.section_group ids "section" fuel next hk
  cases hc : self.createSection name type ids fuel next with
  | none =>
    simp only [createSection] at hc
    cases hm : mintLoop self.section_group ids "section" fuel (createId ids "section" next).1 (createId ids "section" next).2 with
    | none => simp [hm] at hsome
    | some q =>
      have hfresh := mintLoop_fresh _ _ _ _ _ _ _ hm
      simp [hm, Group.openGroup_create_new _ _ hfresh, initWithParent_empty] at hc
  | some res =>
    obtain ⟨r, self', next'⟩ := res
    obtain ⟨c, rfl, -⟩ := createSection_spec self hwf name type ids fuel next r self' next' hc
    exact ⟨c, self', next', rfl⟩

theorem createProperty_returns (self : SectionHDF5) (name : String)
    (ids : Nat → String) (fuel next : Nat) (hno : self.hasPropertyWithName name = false)
    (hk : ∃ k, k < fuel ∧ self.property_group.hasObject (createId ids "property" (next + k)).1 = false) :
    ∃ q self' next', self.createProperty name ids fuel next =
      some (.ok (some q), self', next') := by
  have hsome := mintLoop_isSome self.property_group ids "property" fuel next hk
  cases hc : self.createProperty name ids fuel next with
  | none =>
    simp only [createProperty, hno, Bool.false_eq_true, if_false] at hc
    cases hm : mintLoop self.property_group ids "property" fuel (createId ids "property" next).1 (createId ids "property" next).2 with
    | none => simp [hm] at hsome
    | some q =>
      have hfresh := mintLoop_fresh _ _ _ _ _ _ _ hm
      simp [hm, Group.openGroup_create_new _ _ hfresh] at hc
  | some res =>
    obtain ⟨r, self', next'⟩ := res
    obtain ⟨new_id, -, -, hr, -⟩ :=
      createProperty_shape self name ids fuel next r self' next' hno hc
    exact ⟨_, self', next', by rw [hr]⟩

end SectionHDF5

/-- C3: on a well-formed section, for every stream of candidate ids: when
`createSection` returns, it returns a child whose id was not the name of any
object of the child-section group before the call (so it differs from a first
candidate that collided), and the group afterwards holds the objects it held
before, in order, followed by the new child, with pairwise distinct names; the
same holds for `createProperty` and the property group; and each call returns
as soon as the stream offers a candidate that is free within the bound of the
loop. -/
theorem minted_id_is_fresh (self : SectionHDF5) (hwf : self.WF) (name type : String)
    (ids : Nat → String) (fuel next : Nat) :
    (∀ r self' next', self.createSection name type ids fuel next = some (r, self', next') →
      ∃ c, r = .ok (some c) ∧ self.section_group.hasObject c.id = false ∧
        (self.section_group.hasObject (createId ids "section" next).1 = true → c.id ≠ (createId ids "section" next).1) ∧
        self'.section_group.objects = self.section_group.objects ++ [(c.id, c.group)] ∧
        self'.section_group.names.Nodup ∧ self'.WF) ∧
    (∀ p self' next', self.createProperty name ids fuel next = some (.ok p, self', next') →
      ∃ q, p = some q ∧ self.property_group.hasObject q.id = false ∧
        (self.property_group.hasObject (createId ids "property" next).1 = true → q.id ≠ (createId ids "property" next).1) ∧
        self'.property_group.objects = self.property_group.objects ++ [(q.id, q.entity_group)] ∧
        self'.property_group.names.Nodup ∧ self'.WF) ∧
    ((∃ k, k < fuel ∧ self.section_group.hasObject (createId ids "section" (next + k)).1 = false) →
      ∃ c self' next', self.createSection name type ids fuel next = some (.ok (some c), self', next')) ∧
    (self.hasPropertyWithName name = false →
      (∃ k, k < fuel ∧ self.property_group.hasObject (createId ids "property" (next + k)).1 = false) →
      ∃ q self' next', self.createProperty name ids fuel next = some (.ok (some q), self', next')) :=
  ⟨SectionHDF5.createSection_spec self hwf name type ids fuel next,
    SectionHDF5.createProperty_spec self hwf name ids fuel next,
    SectionHDF5.createSection_returns self hwf name type ids fuel next,
    SectionHDF5.createProperty_returns self name ids fuel next⟩

/-- Witness of C3: the first candidate `section_a` is the id of a child of the sample
section, and `createSection` returns within three rounds of the loop. -/
theorem minted_id_is_fresh_witness :
    sampleSection.WF ∧ sampleSection.section_group.hasObject (createId collidingIds "section" 0).1 = true ∧
      ∃ c self' next', sampleSection.createSection "n" "t" collidingIds 3 0 =
        some (.ok (some c), self', next') :=
  ⟨by decide, by decide,
    (minted_id_is_fresh sampleSection (by decide) "n" "t" collidingIds 3 0).2.2.1
      ⟨1, by decide, by decide⟩⟩

/-! ## Lookup of child sections and properties by id -/

namespace SectionHDF5

theorem initWithParent_ok (parent : Section) (grp : Group) (id : String) :
    ∃ g, initWithParent parent grp id = .ok (mk id parent g) := by
  obtain ⟨c1, g1, h1⟩ := Group.openGroup_create_ok grp "properties"
  obtain ⟨c2, g2, h2⟩ := Group.openGroup_create_ok g1 "sections"
  exact ⟨g2, by simp [initWithParent, h1, h2]⟩

theorem initWithParent_of_realized (parent : Section) (grp : Group) (id : String)
    (h : grp.realized = true) : initWithParent parent grp id = .ok (mk id parent grp) := by
  simp only [Group.realized, Bool.and_eq_true, Group.hasGroup] at h
  obtain ⟨h1, h2⟩ := h
  rw [← Group.find?_isSome] at h1 h2
  cases e1 : grp.find? "properties" with
  | none => simp [e1] at h1
  | some c1 =>
    cases e2 : grp.find? "sections" with
    | none => simp [e2] at h2
    | some c2 => simp [initWithParent, Group.openGroup, e1, e2]

theorem getSection_of_not_has (self : SectionHDF5) (id : String)
    (h : self.hasSection id = false) : self.getSection id = (.ok none, self) := by
  simp only [hasSection] at h
  simp [getSection, h]

theorem getSection_of_has (self : SectionHDF5) (id : String) (h : self.hasSection id = true) :
    ∃ grp g, self.section_group.find? id = some grp ∧ init grp id = .ok (mk id none g) ∧
      self.getSection id = (.ok (some (mk id none g)),
        self.withSectionGroup (self.section_group.store id g)) := by
  simp only [hasSection] at h
  have hs : (self.section_group.find? id).isSome = true := by
    rw [Group.find?_isSome]; exact h
  cases e : self.section_group.find? id with
  | none => simp [e] at hs
  | some grp =>
    obtain ⟨g, hg⟩ := initWithParent_ok none grp id
    refine ⟨grp, g, rfl, hg, ?_⟩
    simp only [init] at *
    simp [getSection, h, Group.openGroup_of_find? _ _ _ _ e, init, hg, group]

theorem getSection_of_find? (self : SectionHDF5) (id : String) (grp : Group)
    (hsec : self.group.hasGroup "sections" = true)
    (hf : self.section_group.find? id = some grp) (hreal : grp.realized = true) :
    self.getSection id = (.ok (some (mk id none grp)), self) := by
  have hhas : self.section_group.hasGroup id = true := by
    rw [Group.hasGroup, ← Group.find?_isSome, hf]; rfl
  simp only [getSection, hhas, if_true, Group.openGroup_of_find? _ _ _ _ hf, init,
    initWithParent_of_realized none grp id hreal, group]
  rw [Group.store_self _ _ _ hf, withSectionGroup_self _ hsec]

theorem getProperty_eq (self : SectionHDF5) (id : String) :
    self.getProperty id =
      (.ok ((self.property_group.find? id).map (fun g => PropertyHDF5.init g id)), self) := by
  cases hh : self.property_group.hasGroup id with
  | false =>
    have : self.property_group.find? id = none := by
      rw [Group.find?_eq_none_iff]; exact hh
    simp [getProperty, hh, this]
  | true =>
    have hs : (self.property_group.find? id).isSome = true := by
      rw [Group.find?_isSome]; exact hh
    cases e : self.property_group.find? id with
    | none => simp [e] at hs
    | some g =>
      have hprops : self.group.hasGroup "properties" = true := by
        cases hp : self.group.hasGroup "properties" with
        | true => rfl
        | false =>
          rw [property_group_of_missing self hp] at e
          simp [Group.find?, Group.empty, Group.objects] at e
      simp only [getProperty, hh, if_true, Group.openGroup_of_find? _ _ _ _ e, Option.map_some']
      rw [withPropertyGroup_self _ hprops]

end SectionHDF5

/-! ## C7: lookup by id never raises -/

/-- C7: for every section and every string `id`, `getSection(id)` returns
without raising, its result is a non-empty handle exactly when `hasSection(id)`
holds, and a returned section has the id `id`; `getProperty(id)` returns without
raising, a non-empty handle exactly when `hasProperty(id)` holds, with the id
`id`, and leaves the section as it is; `getSection` leaves a well-formed
section as it is. -/
theorem lookup_by_id_is_soft (self : SectionHDF5) (id : String) :
    (∃ r st, self.getSection id = (.ok r, st) ∧ r.isSome = self.hasSection id ∧
      (∀ c, r = some c → c.id = id) ∧ (self.WF → st = self)) ∧
    (∃ r, self.getProperty id = (.ok r, self) ∧ r.isSome = self.hasProperty id ∧
      (∀ p, r = some p → p.id = id)) := by
  constructor
  · cases hh : self.hasSection id with
    | false =>
      exact ⟨none, self, SectionHDF5.getSection_of_not_has self id hh, rfl, by simp, fun _ => rfl⟩
    | true =>
      obtain ⟨grp, g, hf, hinit, hget⟩ := SectionHDF5.getSection_of_has self id hh
      refine ⟨_, _, hget, rfl, ?_, ?_⟩
      · intro c hc
        simp only [Option.some.injEq] at hc
        rw [← hc]; rfl
      · intro hwf
        have hreal : grp.realized = true := hwf.2.2.2 (id, grp) (Group.find?_mem _ _ _ hf)
        have := SectionHDF5.getSection_of_find? self id grp
          (SectionHDF5.hasGroup_sections_of_WF self hwf) hf hreal
        rw [hget] at this
        exact (Prod.mk.inj this).2
  · refine ⟨_, SectionHDF5.getProperty_eq self id, ?_, ?_⟩
    · rw [Option.isSome_map', Group.find?_isSome]; rfl
    · intro p hp
      rw [Option.map_eq_some'] at hp
      obtain ⟨g, -, rfl⟩ := hp
      rfl

/-- Witness of C7 on the sample section: the child `section_a` is found, the id `zz`
is not, and neither lookup raises or changes the section. -/
theorem lookup_by_id_is_soft_witness :
    sampleSection.WF ∧ sampleSection.hasSection "section_a" = true ∧ sampleSection.hasSection "zz" = false ∧
      (sampleSection.getSection "zz" = (.ok none, sampleSection)) ∧
      (∃ r st, sampleSection.getSection "section_a" = (.ok r, st) ∧
        r.isSome = sampleSection.hasSection "section_a" ∧
        (∀ c, r = some c → c.id = "section_a") ∧ (sampleSection.WF → st = sampleSection)) :=
  ⟨by decide, by decide, by decide, by rfl, (lookup_by_id_is_soft sampleSection "section_a").1⟩

/-! ## C8: postcondition of createSection -/

/-- C8: on a well-formed section `p`, for all strings `name` and `type`:
`createSection(name, type)` returns as soon as the stream offers a free
candidate within the bound of the loop, and whenever it returns, it returns a
non-empty handle `c` such that `c.parent()` is `p`: the handle shows the
section the call was made on as it is after the call (`p'`, with the id and
the parent handle of `p`, and with the new child, so that through
`c.parent()` the count is one more than before and `hasSection(c.id())`
holds); `c.name() = name`, `c.type() = type`; afterwards `hasSection(c.id())`
holds, `getSection(c.id())` is a section with the same id, name and type,
`sectionCount()` is one more than before and every child that existed before
is still present, unchanged. -/
theorem createSection_postcondition (p : SectionHDF5) (hwf : p.WF) (name type : String)
    (ids : Nat → String) (fuel next : Nat) :
    ((∃ k, k < fuel ∧ p.section_group.hasObject (createId ids "section" (next + k)).1 = false) →
      ∃ c p' next', p.createSection name type ids fuel next = some (.ok (some c), p', next')) ∧
    (∀ r p' next', p.createSection name type ids fuel next = some (r, p', next') →
      ∃ c, r = .ok (some c) ∧ c.parent = some p' ∧ p'.id = p.id ∧ p'.parent = p.parent ∧
        c.parent.map SectionHDF5.sectionCount = some (p.sectionCount + 1) ∧
        c.parent.map (fun q => q.hasSection c.id) = some true ∧
        c.name = name ∧ c.type = type ∧
        p'.hasSection c.id = true ∧
        (∃ d, p'.getSection c.id = (.ok (some d), p') ∧ d.id = c.id ∧ d.name = name ∧
          d.type = type) ∧
        p'.sectionCount = p.sectionCount + 1 ∧
        (∀ id, p.hasSection id = true → p'.hasSection id = true) ∧
        (∀ id, p.hasSection id = true → p'.section_group.find? id = p.section_group.find? id)) := by
  constructor
  · exact SectionHDF5.createSection_returns p hwf name type ids fuel next
  · intro r p' next' h
    obtain ⟨c, hr, hfresh, -, hobjs, hnd, hwf'⟩ :=
      SectionHDF5.createSection_spec p hwf name type ids fuel next r p' next' h
    obtain ⟨new_id, -, -, hr', hp'⟩ :=
      SectionHDF5.createSection_shape p name type ids fuel next r p' next' h
    have hc : c = (((SectionHDF5.mk new_id (some p) emptySectionGroup).setName name).setType
        type).withParent (some p') := by
      rw [hr] at hr'
      simpa using hr'
    have hmem : (c.id, c.group) ∈ p'.section_group.objects := by
      rw [hobjs]; simp
    have hfind : p'.section_group.find? c.id = some c.group :=
      Group.find?_of_mem _ hnd (c.id, c.group) hmem
    have hhas : p'.hasSection c.id = true := by
      rw [SectionHDF5.hasSection, Group.hasGroup, ← Group.find?_isSome, hfind]; rfl
    have hreal : c.group.realized = true := hwf'.2.2.2 _ hmem
    have hget := SectionHDF5.getSection_of_find? p' c.id c.group
      (SectionHDF5.hasGroup_sections_of_WF p' hwf') hfind hreal
    have hname : c.name = name := by rw [hc]; rfl
    have htype : c.type = type := by rw [hc]; rfl
    have hparent : c.parent = some p' := by rw [hc]; rfl
    have hcount : p'.sectionCount = p.sectionCount + 1 := by
      simp [SectionHDF5.sectionCount, Group.objectCount, hobjs]
    refine ⟨c, hr, hparent, by rw [hp']; rfl, by rw [hp']; rfl, ?_, ?_, hname, htype, hhas,
      ⟨_, hget, rfl, hname, htype⟩, hcount, ?_, ?_⟩
    · rw [hparent, Option.map_some', hcount]
    · rw [hparent, Option.map_some', hhas]
    · intro id hid
      simp only [SectionHDF5.hasSection, Group.hasGroup, Group.hasObject, hobjs] at *
      simp [hid]
    · intro id hid
      simp only [SectionHDF5.hasSection, Group.hasGroup] at hid
      have hs : (p.section_group.find? id).isSome = true := by
        rw [Group.find?_isSome]; exact hid
      simp only [Group.find?, hobjs, List.find?_append] at *
      cases e : List.find? (fun o => o.1 == id) p.section_group.objects with
      | none => simp [e] at hs
      | some o => simp

/-- Witness of C8 on the sample section (two children), with a first candidate
that collides: the call returns, and through `c.parent()` the section has three
children and `hasSection(c.id())` holds. -/
theorem createSection_postcondition_witness :
    sampleSection.WF ∧
      (∃ c p' next', sampleSection.createSection "n" "t" collidingIds 3 0 =
        some (.ok (some c), p', next')) ∧
      sampleSection.sectionCount = 2 ∧
      (sampleSection.createSection "n" "t" collidingIds 3 0).map
          (fun res =>
            match res.1 with
            | .ok (some c) => c.parent.map (fun q => (q.sectionCount, q.hasSection c.id))
            | _ => none) = some (some (3, true)) :=
  ⟨by decide,
    (createSection_postcondition sampleSection (by decide) "n" "t" collidingIds 3 0).1
      ⟨1, by decide, by decide⟩, by decide, by decide⟩

/-! ## C9: the parent reported by handles from lookups -/

namespace SectionHDF5

theorem getSection_parent (self : SectionHDF5) (id : String) (c : SectionHDF5) (st : SectionHDF5)
    (h : self.getSection id = (.ok (some c), st)) : c.parent = none := by
  cases hh : self.hasSection id with
  | false =>
    rw [getSection_of_not_has self id hh] at h
    simp at h
  | true =>
    obtain ⟨grp, g, -, -, hget⟩ := getSection_of_has self id hh
    rw [hget] at h
    simp only [Prod.mk.injEq, Except.ok.injEq, Option.some.injEq] at h
    rw [← h.1]; rfl

end SectionHDF5

/-- C9 (evaluation of the code): a handle that `getSection(id)` returns reports
no parent, for every section and id; on the sample section `p` with the
children `section_a` and `section_b`, the handles from `p.getSection("section_a")`, `p.getSection(0)`
and `p.sections()` all report the empty handle as `parent()`, and after
`c = p.createSection(..)`, where `c.parent()` is `p` (as it is after the
call), the handle from `getSection(c.id())` reports the empty handle as well. -/
theorem getSection_reports_no_parent :
    (∀ (self : SectionHDF5) (id : String) (c st : SectionHDF5),
      self.getSection id = (.ok (some c), st) → c.parent = none) ∧
    (∃ c st, sampleSection.getSection "section_a" = (.ok (some c), st) ∧ c.id = "section_a" ∧ c.parent = none) ∧
    (∃ c st, sampleSection.getSectionAt 0 = (.ok (some c), st) ∧ c.id = "section_a" ∧ c.parent = none) ∧
    (∃ l st, sampleSection.sections = (.ok l, st) ∧ l.map SectionHDF5.id = ["section_a", "section_b"] ∧
      ∀ c ∈ l, c.parent = none) ∧
    (∃ c p' next' d st, sampleSection.createSection "n" "t" collidingIds 3 0 =
        some (.ok (some c), p', next') ∧ c.parent = some p' ∧ p'.id = sampleSection.id ∧
      p'.getSection c.id = (.ok (some d), st) ∧ d.id = c.id ∧ d.parent = none) := by
  refine ⟨SectionHDF5.getSection_parent, ⟨_, _, rfl, rfl, rfl⟩, ⟨_, _, rfl, rfl, rfl⟩,
    ⟨_, _, rfl, rfl, ?_⟩, ⟨_, _, _, _, _, rfl, rfl, rfl, rfl, rfl, rfl⟩⟩
  intro c hc
  simp only [List.mem_cons, List.mem_singleton, List.mem_append, List.not_mem_nil, or_false,
    List.nil_append] at hc
  rcases hc with rfl | rfl <;> rfl

/-! ## C4: removal of a child section -/

theorem Group.sectionsInList_append (l1 l2 : List (String × Group)) :
    Group.sectionsInList (l1 ++ l2) = Group.sectionsInList l1 ++ Group.sectionsInList l2 := by
  induction l1 with
  | nil => simp [Group.sectionsInList]
  | cons o l1 ih =>
    obtain ⟨id, g⟩ := o
    simp [Group.sectionsInList, ih]

theorem Group.sectionsBelowList_eq (os : List (String × Group)) :
    Group.sectionsBelowList os =
      match (os.find? (fun o => o.1 == "sections")).map Prod.snd with
      | some d => d.sectionsIn
      | none => [] := by
  induction os with
  | nil => simp [Group.sectionsBelowList]
  | cons o os ih =>
    obtain ⟨n, d⟩ := o
    by_cases h : (n == "sections") = true
    · simp [Group.sectionsBelowList, h, List.find?_cons]
    · have h' : (n == "sections") = false := by simpa using h
      simp only [Group.sectionsBelowList, h', List.find?_cons, Bool.false_eq_true, if_false]
      exact ih

theorem Group.sectionsBelow_eq (g : Group) :
    g.sectionsBelow = match g.find? "sections" with
      | some d => d.sectionsIn
      | none => [] := by
  cases g with
  | mk a os =>
    rw [Group.sectionsBelow, Group.sectionsBelowList_eq]
    rfl

theorem SectionHDF5.group_sectionsBelow_eq (self : SectionHDF5) :
    self.group.sectionsBelow = Group.sectionsInList self.section_group.objects := by
  rw [Group.sectionsBelow_eq]
  cases e : self.group.find? "sections" with
  | none => simp [SectionHDF5.section_group, e, Group.empty, Group.objects, Group.sectionsInList]
  | some d =>
    simp only [SectionHDF5.section_group, e, Option.getD_some]
    cases d with
    | mk a os => simp [Group.sectionsIn, Group.objects]

/-- Shape of the child-section group around the child that `removeSection(id)`
unlinks. -/
theorem Group.removeGroup_split (sg : Group) (hnd : sg.names.Nodup) (cid : String) (cg : Group)
    (hc : sg.find? cid = some cg) :
    ∃ l1 l2, sg.objects = l1 ++ (cid, cg) :: l2 ∧ (sg.removeGroup cid).objects = l1 ++ l2 ∧
      cid ∉ (l1 ++ l2).map Prod.fst := by
  have hmem := Group.find?_mem sg cid cg hc
  have hp : (fun o : String × Group => o.1 == cid) (cid, cg) = true := by simp
  obtain ⟨a, l1, l2, hl1, hpa, hsplit, herase⟩ :=
    List.exists_of_eraseP (p := fun o : String × Group => o.1 == cid) hmem hp
  have ha1 : a.1 = cid := by simpa using hpa
  have hfind := Group.find?_of_mem sg hnd a (by rw [hsplit]; simp)
  rw [ha1, hc] at hfind
  have ha : a = (cid, cg) := by
    obtain ⟨a1, a2⟩ := a
    simp only at ha1
    simp only [Option.some.injEq] at hfind
    rw [ha1, ← hfind]
  subst ha
  refine ⟨l1, l2, hsplit, herase, ?_⟩
  have hnd' := hnd
  simp only [Group.names, hsplit, List.map_append, List.map_cons] at hnd'
  rw [List.nodup_append] at hnd'
  obtain ⟨-, h2, hdisj⟩ := hnd'
  simp only [List.nodup_cons] at h2
  simp only [List.map_append, List.mem_append, not_or]
  refine ⟨?_, h2.1⟩
  intro hin
  exact hdisj hin (List.mem_cons_self _ _)

/-- Well-formedness is kept by `removeSection` and `removeProperty` (for
`createSection` and `createProperty` see `createSection_spec` and
`createProperty_spec`), and it holds for a section constructed on a new group. -/
theorem SectionHDF5.WF_removeSection (self : SectionHDF5) (hwf : self.WF) (id : String) :
    (self.removeSection id).2.WF := by
  simp only [SectionHDF5.removeSection]
  split
  · have hsub : (self.section_group.removeGroup id).objects.Sublist self.section_group.objects :=
      List.eraseP_sublist _
    apply SectionHDF5.WF_withSectionGroup self hwf _ (hwf.2.2.1.sublist (hsub.map _))
    intro o ho
    exact hwf.2.2.2 o (hsub.subset ho)
  · exact hwf

theorem SectionHDF5.WF_removeProperty (self : SectionHDF5) (hwf : self.WF) (id : String) :
    (self.removeProperty id).2.WF := by
  simp only [SectionHDF5.removeProperty]
  split
  · have hsub : (self.property_group.removeGroup id).objects.Sublist self.property_group.objects :=
      List.eraseP_sublist _
    exact SectionHDF5.WF_withPropertyGroup self hwf _ (hwf.2.1.sublist (hsub.map _))
  · exact hwf

theorem SectionHDF5.WF_init_empty (parent : Section) (id : String) :
    ∃ s, SectionHDF5.initWithParent parent Group.empty id = .ok s ∧ s.WF :=
  ⟨SectionHDF5.mk id parent emptySectionGroup, rfl, by
    refine ⟨rfl, ?_, ?_, ?_⟩
    · exact List.nodup_nil
    · exact List.nodup_nil
    · intro o ho
      exact absurd ho (List.not_mem_nil o)⟩

/-- C4 as stated fails: in `collisionSection` the child `section_a` has a descendant
with the id `section_b`, which is also the id of another child; after
`removeSection("section_a")` the lookup `hasSection("section_b")` still holds. -/
theorem removeSection_descendant_id_counterexample :
    ¬ (∀ (s : SectionHDF5) (cid : String) (cg : Group), s.WF →
        s.section_group.find? cid = some cg →
        ∀ x ∈ cg.sectionsBelow.map Prod.fst, (s.removeSection cid).2.hasSection x = false) := by
  intro h
  have := h collisionSection "section_a" _ (by decide) rfl "section_b" (by decide)
  exact absurd this (by decide)

/-- C4 (amended): on a well-formed section `s` with a child `c` (id `cid`, group
`cg`), `removeSection(cid)` returns true; afterwards `hasSection(cid)` is false
and `getSection(cid)` is the empty handle, and the same holds for the id `x` of
every descendant of `c` that is not also the id of another child of `s`; every
chain of `getSection` calls that starts with `cid` ends in the empty handle;
`sectionCount()` has dropped by one; and the sections below `s` afterwards are
the sections below `s` before without `c` and the sections below `c`. -/
theorem removeSection_subtree (s : SectionHDF5) (hwf : s.WF) (cid : String) (cg : Group)
    (hc : s.section_group.find? cid = some cg) :
    (s.removeSection cid).1 = true ∧
    (s.removeSection cid).2.hasSection cid = false ∧
    (s.removeSection cid).2.getSection cid = (.ok none, (s.removeSection cid).2) ∧
    (∀ x ∈ cg.sectionsBelow.map Prod.fst, (s.hasSection x = true → x = cid) →
      (s.removeSection cid).2.hasSection x = false ∧
      (s.removeSection cid).2.getSection x = (.ok none, (s.removeSection cid).2)) ∧
    (∀ rest, SectionHDF5.getSectionChain (cid :: rest) (s.removeSection cid).2 = none) ∧
    (s.removeSection cid).2.sectionCount + 1 = s.sectionCount ∧
    (∃ l1 l2, s.section_group.objects = l1 ++ (cid, cg) :: l2 ∧
      (s.removeSection cid).2.section_group.objects = l1 ++ l2 ∧
      s.group.sectionsBelow =
        Group.sectionsInList l1 ++ ((cid, cg) :: cg.sectionsBelow) ++ Group.sectionsInList l2 ∧
      (s.removeSection cid).2.group.sectionsBelow =
        Group.sectionsInList l1 ++ Group.sectionsInList l2) := by
  have hsec := SectionHDF5.hasGroup_sections_of_WF s hwf
  have hhas : s.section_group.hasGroup cid = true := by
    rw [Group.hasGroup, ← Group.find?_isSome, hc]; rfl
  have hrem : s.removeSection cid = (true, s.withSectionGroup (s.section_group.removeGroup cid)) := by
    simp [SectionHDF5.removeSection, hhas]
  obtain ⟨l1, l2, hsplit, herase, hnot⟩ := Group.removeGroup_split _ hwf.2.2.1 cid cg hc
  have hsg : (s.withSectionGroup (s.section_group.removeGroup cid)).section_group =
      s.section_group.removeGroup cid := SectionHDF5.withSectionGroup_section_group _ _ hsec
  have hgone : (s.removeSection cid).2.hasSection cid = false := by
    rw [hrem]
    simp only [SectionHDF5.hasSection, hsg, Group.hasGroup]
    rw [Group.hasObject_eq_false_iff, Group.names, herase]
    exact hnot
  have hsub : ∀ x, (s.removeSection cid).2.hasSection x = true → s.hasSection x = true := by
    intro x hx
    rw [hrem] at hx
    simp only [SectionHDF5.hasSection, hsg, Group.hasGroup] at hx ⊢
    rw [Group.hasObject_iff] at hx ⊢
    simp only [Group.names, herase, hsplit] at hx ⊢
    simp only [List.map_append, List.mem_append, List.map_cons, List.mem_cons] at hx ⊢
    tauto
  refine ⟨by rw [hrem], hgone, SectionHDF5.getSection_of_not_has _ _ hgone, ?_, ?_, ?_, ?_⟩
  · intro x _ hx
    have hxf : (s.removeSection cid).2.hasSection x = false := by
      cases hh : (s.removeSection cid).2.hasSection x with
      | false => rfl
      | true =>
        have := hx (hsub x hh)
        rw [this, hgone] at hh
        exact Bool.noConfusion hh
    exact ⟨hxf, SectionHDF5.getSection_of_not_has _ _ hxf⟩
  · intro rest
    simp [SectionHDF5.getSectionChain, SectionHDF5.getSection_of_not_has _ _ hgone]
  · rw [hrem]
    simp only [SectionHDF5.sectionCount, hsg, Group.objectCount, herase, hsplit]
    simp
    omega
  · refine ⟨l1, l2, hsplit, ?_, ?_, ?_⟩
    · rw [hrem]; simp only [hsg]; exact herase
    · rw [SectionHDF5.group_sectionsBelow_eq, hsplit, Group.sectionsInList_append]
      simp [Group.sectionsInList]
    · rw [SectionHDF5.group_sectionsBelow_eq, hrem]
      simp only [hsg, herase, Group.sectionsInList_append]

/-- Witness of C4 (amended): removal of the child `section_a` of the sample section. -/
theorem removeSection_subtree_witness :
    sampleSection.WF ∧ (sampleSection.removeSection "section_a").1 = true ∧
      (sampleSection.removeSection "section_a").2.hasSection "section_a" = false ∧
      (sampleSection.removeSection "section_a").2.sectionCount + 1 = sampleSection.sectionCount ∧
      (sampleSection.removeSection "section_a").2.group.sectionsBelow.map Prod.fst = ["section_b"] :=
  have h := removeSection_subtree sampleSection (by decide) "section_a"
    (Group.mk [("name", "A")]
      [("properties", Group.empty), ("sections", Group.mk [] [("section_a1", emptySectionGroup)])]) rfl
  ⟨by decide, h.1, h.2.1, h.2.2.2.2.2.1, by decide⟩

/-! ## Facts about paths into a file -/

theorem Group.hasObject_of_find? (g : Group) (n : String) (c : Group) (h : g.find? n = some c) :
    g.hasObject n = true := by
  rw [← Group.find?_isSome, h]; rfl

theorem Group.descend_updateAt (m : Group → Group) (path : List String) (g : Group) :
    Group.descend path (Group.updateAt m path g) = (Group.descend path g).map m := by
  induction path generalizing g with
  | nil => rfl
  | cons id rest ih =>
    cases hs : g.find? "sections" with
    | none => simp [Group.descend, Group.updateAt, hs]
    | some d =>
      cases hd : d.find? id with
      | none => simp [Group.descend, Group.updateAt, hs, hd]
      | some c =>
        simp only [Group.descend, Group.updateAt, hs, hd]
        rw [Group.find?_store_same _ _ _ (Group.hasObject_of_find? _ _ _ hs)]
        simp only
        rw [Group.find?_store_same _ _ _ (Group.hasObject_of_find? _ _ _ hd)]
        exact ih c

theorem File.groupAt_call (file : File) (m : SectionHDF5 → SectionHDF5) (path : List String) :
    (file.call m path).groupAt path =
      (file.groupAt path).map (fun x => (m (SectionHDF5.mk (path.getLastD "") none x)).group) := by
  cases path with
  | nil => rfl
  | cons id rest =>
    cases hf : file.metadata.find? id with
    | none => simp [File.call, File.groupAt, hf]
    | some g =>
      simp only [File.call, File.groupAt, hf]
      rw [Group.find?_store_same _ _ _ (Group.hasObject_of_find? _ _ _ hf)]
      exact Group.descend_updateAt _ rest g

theorem Group.sectionsIn_eq (d : Group) : d.sectionsIn = Group.sectionsInList d.objects := by
  cases d with
  | mk a os => simp [Group.sectionsIn, Group.objects]

theorem Group.sectionsBelow_congr (g g' : Group) (h : g'.objects = g.objects) :
    g'.sectionsBelow = g.sectionsBelow := by
  cases g with
  | mk a os =>
    cases g' with
    | mk a' os' =>
      simp only [Group.objects] at h
      simp [Group.sectionsBelow, h]

theorem Group.sectionsBelow_store (g d : Group) (h : g.hasObject "sections" = true) :
    (g.store "sections" d).sectionsBelow = d.sectionsIn := by
  rw [Group.sectionsBelow_eq, Group.find?_store_same _ _ _ h]

theorem Group.sectionsBelow_of_find? (g d : Group) (h : g.find? "sections" = some d) :
    g.sectionsBelow = d.sectionsIn := by
  rw [Group.sectionsBelow_eq, h]

/-- Split of a list of objects at the first object of a name. -/
theorem Group.split_of_find? (os : List (String × Group)) (n : String) (c : Group)
    (h : (os.find? (fun o => o.1 == n)).map Prod.snd = some c) :
    ∃ l1 l2, os = l1 ++ (n, c) :: l2 ∧ n ∉ l1.map Prod.fst := by
  rw [Option.map_eq_some'] at h
  obtain ⟨o, ho, rfl⟩ := h
  rw [List.find?_eq_some] at ho
  obtain ⟨hp, l1, l2, hsplit, hl1⟩ := ho
  have ho1 : o.1 = n := by simpa using hp
  refine ⟨l1, l2, ?_, ?_⟩
  · rw [hsplit, ← ho1]
  · intro hin
    rw [List.mem_map] at hin
    obtain ⟨x, hx, hxn⟩ := hin
    have := hl1 x hx
    simp [hxn] at this

theorem Group.storeIn_split (l1 l2 : List (String × Group)) (n : String) (c c' : Group)
    (h : n ∉ l1.map Prod.fst) :
    Group.storeIn n c' (l1 ++ (n, c) :: l2) = l1 ++ (n, c') :: l2 := by
  induction l1 with
  | nil => simp [Group.storeIn]
  | cons o l1 ih =>
    simp only [List.map_cons, List.mem_cons, not_or] at h
    have hne : ¬ (o.1 == n) = true := by
      simp only [beq_iff_eq]; exact fun he => h.1 he.symm
    simp [Group.storeIn, hne, ih h.2]

theorem Group.ids_storeIn (os : List (String × Group)) (n : String) (c c' : Group)
    (hf : (os.find? (fun o => o.1 == n)).map Prod.snd = some c)
    (hc : c'.sectionsBelow.map Prod.fst = c.sectionsBelow.map Prod.fst) :
    (Group.sectionsInList (Group.storeIn n c' os)).map Prod.fst =
      (Group.sectionsInList os).map Prod.fst := by
  obtain ⟨l1, l2, rfl, hl1⟩ := Group.split_of_find? os n c hf
  rw [Group.storeIn_split _ _ _ _ _ hl1, Group.sectionsInList_append, Group.sectionsInList_append]
  simp [Group.sectionsInList, hc]

theorem Group.ids_updateAt (m : Group → Group) (hm : ∀ x, (m x).objects = x.objects)
    (path : List String) (g : Group) :
    (Group.updateAt m path g).sectionsBelow.map Prod.fst = g.sectionsBelow.map Prod.fst := by
  induction path generalizing g with
  | nil => simp only [Group.updateAt]; rw [Group.sectionsBelow_congr g (m g) (hm g)]
  | cons id rest ih =>
    cases hs : g.find? "sections" with
    | none => simp [Group.updateAt, hs]
    | some d =>
      cases hd : d.find? id with
      | none => simp [Group.updateAt, hs, hd]
      | some c =>
        simp only [Group.updateAt, hs, hd]
        rw [Group.sectionsBelow_store _ _ (Group.hasObject_of_find? _ _ _ hs),
          Group.sectionsBelow_of_find? g d hs, Group.sectionsIn_eq, Group.sectionsIn_eq]
        exact Group.ids_storeIn d.objects id c _ hd (ih c)

theorem File.ids_call (file : File) (m : SectionHDF5 → SectionHDF5)
    (hm : ∀ x, (m x).group.objects = x.group.objects) (path : List String) :
    (file.call m path).metadata.sectionsIn.map Prod.fst = file.metadata.sectionsIn.map Prod.fst := by
  cases path with
  | nil => rfl
  | cons id rest =>
    cases hf : file.metadata.find? id with
    | none => simp [File.call, hf]
    | some g =>
      simp only [File.call, hf]
      rw [Group.sectionsIn_eq, Group.sectionsIn_eq]
      apply Group.ids_storeIn file.metadata.objects id g _ hf
      apply Group.ids_updateAt
      intro x
      exact hm _

theorem SectionHDF5.setLink_objects (self : SectionHDF5) (l : Section) :
    (self.setLink l).group.objects = self.group.objects := by
  cases l with
  | some t => rfl
  | none =>
    simp only [SectionHDF5.setLink]
    split <;> rfl

theorem List.head?_filter_eq_find? {α : Type} (p : α → Bool) (l : List α) :
    (l.filter p).head? = l.find? p := by
  induction l with
  | nil => rfl
  | cons a l ih =>
    by_cases h : p a = true
    · simp [List.filter_cons, h, List.find?_cons]
    · have h' : p a = false := by simpa using h
      simp [List.filter_cons, h', List.find?_cons, ih]

/-! ## C6: setting and reading a link -/

theorem Group.getAttr_removeAttr_same (g : Group) (n : String) : (g.removeAttr n).getAttr n = none := by
  cases g with
  | mk a os =>
    simp only [Group.getAttr, Group.removeAttr, Group.attrs]
    induction a with
    | nil => rfl
    | cons x xs ih =>
      obtain ⟨k, v⟩ := x
      by_cases h : k = n
      · subst h
        simpa [List.filter_cons] using ih
      · have h1 : (k != n) = true := by simpa using h
        have h2 : (n == k) = false := by simpa using fun e : n = k => h e.symm
        simp only [List.filter_cons, h1, if_true, List.lookup_cons, h2]
        exact ih

theorem File.findSections_all (file : File) :
    file.findSections (fun _ => true) =
      file.metadata.sectionsIn.map (fun o => SectionHDF5.mk o.1 none o.2) := by
  simp [File.findSections]

theorem List.ite_head? {α : Type} (l : List α) :
    (if l.length > 0 then l.head? else none) = l.head? := by
  cases l <;> simp

theorem SectionHDF5.link_eq (self : SectionHDF5) (file : File) :
    self.link file =
      if self.group.getAttrOrEmpty "link" != "" then
        (file.findSections (fun _ => true)).find?
          (fun x => self.group.getAttrOrEmpty "link" == x.id)
      else none := by
  simp only [SectionHDF5.link, List.ite_head?]
  split
  · rw [File.findSections_all, File.findSections, List.head?_filter_eq_find?]
  · rfl

theorem SectionHDF5.link_of_no_attr (i : String) (g : Group) (file : File)
    (h : g.getAttr "link" = none) : (SectionHDF5.mk i none g).link file = none := by
  rw [SectionHDF5.link_eq]
  have : (SectionHDF5.mk i none g).group.getAttrOrEmpty "link" = "" := by
    show g.getAttrOrEmpty "link" = ""
    simp [Group.getAttrOrEmpty, h]
  simp [this]

/-- C6: for every section `s` of a file (at the path `ps`) and every section `t`
that the file-wide search reaches (ids are minted non-empty), after `s.link(t)`
the attribute `link` of `s` holds `t.id()` and the getter `s.link()` returns the
first section in search order whose id is `t.id()`; after `s.link(none)` the
attribute `link` is absent from the group of `s` and `s.link()` is the empty
handle, whether or not a link was set before. -/
theorem link_round_trip (file : File) (ps : List String) (s : SectionHDF5)
    (hs : file.sectionAt ps = some s) :
    (∀ t ∈ file.findSections (fun _ => true), t.id ≠ "" →
      ∃ s' r, (file.call (fun x => x.setLink (some t)) ps).sectionAt ps = some s' ∧
        s'.group.getAttr "link" = some t.id ∧
        s'.link (file.call (fun x => x.setLink (some t)) ps) = some r ∧ r.id = t.id ∧
        ((file.call (fun x => x.setLink (some t)) ps).findSections (fun _ => true)).find?
          (fun x => t.id == x.id) = some r) ∧
    (∃ s', (file.call (fun x => x.setLink none) ps).sectionAt ps = some s' ∧
      s'.group.hasAttr "link" = false ∧
      s'.link (file.call (fun x => x.setLink none) ps) = none) := by
  have hg : ∃ g0, file.groupAt ps = some g0 := by
    simp only [File.sectionAt, Option.map_eq_some'] at hs
    obtain ⟨g0, h0, -⟩ := hs
    exact ⟨g0, h0⟩
  obtain ⟨g0, hg0⟩ := hg
  constructor
  · intro t ht htid
    have hat : (file.call (fun x => x.setLink (some t)) ps).sectionAt ps =
        some (SectionHDF5.mk (ps.getLastD "") none (g0.setAttr "link" t.id)) := by
      simp only [File.sectionAt, File.groupAt_call, hg0, Option.map_some']
      rfl
    have hattr : (SectionHDF5.mk (ps.getLastD "") none (g0.setAttr "link" t.id)).group.getAttrOrEmpty
        "link" = t.id := Group.getAttrOrEmpty_setAttr_same g0 "link" t.id
    have hids := File.ids_call file (fun x => x.setLink (some t))
      (fun x => SectionHDF5.setLink_objects x (some t)) ps
    have hmem : t.id ∈ (file.call (fun x => x.setLink (some t)) ps).metadata.sectionsIn.map
        Prod.fst := by
      rw [hids]
      rw [File.findSections_all, List.mem_map] at ht
      obtain ⟨o, ho, rfl⟩ := ht
      exact List.mem_map_of_mem Prod.fst ho
    have hsome : ((List.find? (fun x => t.id == x.id)
        ((file.call (fun x => x.setLink (some t)) ps).findSections (fun _ => true)))).isSome = true := by
      rw [List.find?_isSome, File.findSections_all]
      rw [List.mem_map] at hmem
      obtain ⟨o, ho, hoid⟩ := hmem
      refine ⟨SectionHDF5.mk o.1 none o.2, List.mem_map_of_mem _ ho, ?_⟩
      simp [SectionHDF5.id, hoid]
    cases hfind : List.find? (fun x => t.id == x.id)
        ((file.call (fun x => x.setLink (some t)) ps).findSections (fun _ => true)) with
    | none => simp [hfind] at hsome
    | some r =>
      have hrid : r.id = t.id := by
        have := List.find?_some hfind
        simp only [beq_iff_eq] at this
        exact this.symm
      refine ⟨_, r, hat, Group.getAttr_setAttr_same g0 "link" t.id, ?_, hrid, rfl⟩
      rw [SectionHDF5.link_eq, hattr, hfind]
      simp [htid]
  · have hnone : ((fun x : SectionHDF5 => x.setLink none)
        (SectionHDF5.mk (ps.getLastD "") none g0)).group.getAttr "link" = none := by
      simp only [SectionHDF5.setLink]
      split
      · exact Group.getAttr_removeAttr_same g0 "link"
      · rename_i h
        simp only [Group.hasAttr, SectionHDF5.group] at h
        cases e : g0.getAttr "link" with
        | none => exact e
        | some v => simp [e] at h
    refine ⟨SectionHDF5.mk (ps.getLastD "") none
      ((fun x : SectionHDF5 => x.setLink none) (SectionHDF5.mk (ps.getLastD "") none g0)).group,
      ?_, ?_, ?_⟩
    · simp only [File.sectionAt, File.groupAt_call, hg0, Option.map_some']
    · show (Group.getAttr ((fun x : SectionHDF5 => x.setLink none)
        (SectionHDF5.mk (ps.getLastD "") none g0)).group "link").isSome = false
      rw [hnone]; rfl
    · exact SectionHDF5.link_of_no_attr _ _ _ hnone

/-- Witness of C6 on the sample file: the root section `section_q` is linked to
the section `section_b`, and the link is removed again. -/
theorem link_round_trip_witness :
    (∃ s' r, (sampleFile.call (fun x => x.setLink (some (SectionHDF5.mk "section_b" none
          emptySectionGroup))) ["section_q"]).sectionAt ["section_q"] = some s' ∧
        s'.group.getAttr "link" = some "section_b" ∧
        s'.link (sampleFile.call (fun x => x.setLink (some (SectionHDF5.mk "section_b" none
          emptySectionGroup))) ["section_q"]) = some r ∧ r.id = "section_b" ∧
        ((sampleFile.call (fun x => x.setLink (some (SectionHDF5.mk "section_b" none
          emptySectionGroup))) ["section_q"]).findSections (fun _ => true)).find?
          (fun x => "section_b" == x.id) = some r) ∧
    (∃ s', (sampleFile.call (fun x => x.setLink none) ["section_q"]).sectionAt ["section_q"] =
        some s' ∧
      s'.group.hasAttr "link" = false ∧
      s'.link (sampleFile.call (fun x => x.setLink none) ["section_q"]) = none) :=
  ⟨(link_round_trip sampleFile ["section_q"] (SectionHDF5.mk "section_q" none emptySectionGroup)
      rfl).1 (SectionHDF5.mk "section_b" none emptySectionGroup)
      (List.Mem.tail _ (List.Mem.tail _ (List.Mem.tail _ (List.Mem.head _)))) (by decide),
    (link_round_trip sampleFile ["section_q"] (SectionHDF5.mk "section_q" none emptySectionGroup)
      rfl).2⟩

/-! ## C5: a link whose target is removed -/

theorem File.groupAt_eq_descend (file : File) (id : String) (rest : List String) :
    file.groupAt (id :: rest) = Group.descend (id :: rest) file.root := by
  have h : file.root.find? "sections" = some file.metadata := rfl
  simp only [File.groupAt, Group.descend, h]

theorem File.root_call (file : File) (m : SectionHDF5 → SectionHDF5) (id : String)
    (rest : List String) :
    (file.call m (id :: rest)).root =
      Group.updateAt (fun x => (m (SectionHDF5.mk ((id :: rest).getLastD "") none x)).group)
        (id :: rest) file.root := by
  have h : file.root.find? "sections" = some file.metadata := rfl
  simp only [File.call, Group.updateAt, h]
  cases hf : file.metadata.find? id with
  | none => rfl
  | some c => rfl

theorem File.sectionsBelow_root (file : File) :
    file.root.sectionsBelow = file.metadata.sectionsIn := by
  rw [Group.sectionsBelow_of_find? file.root file.metadata rfl]

theorem Group.find?_congr (g g' : Group) (h : g'.objects = g.objects) (n : String) :
    g'.find? n = g.find? n := by
  simp [Group.find?, h]

/-- A change of attributes somewhere in a tree leaves the names of the children
of every section of the tree as they are. -/
theorem Group.childNames_updateAt (m : Group → Group) (hm : ∀ x, (m x).objects = x.objects)
    (ps pp : List String) (g : Group) :
    (Group.descend pp (Group.updateAt m ps g)).map Group.childNames =
      (Group.descend pp g).map Group.childNames := by
  induction ps generalizing pp g with
  | nil =>
    cases pp with
    | nil =>
      simp only [Group.updateAt, Group.descend, Option.map_some', Group.childNames,
        Group.find?_congr g (m g) (hm g)]
    | cons id rest =>
      simp only [Group.updateAt, Group.descend, Group.find?_congr g (m g) (hm g)]
  | cons p ps' ih =>
    cases hs : g.find? "sections" with
    | none => simp [Group.updateAt, hs]
    | some d =>
      cases hd : d.find? p with
      | none => simp [Group.updateAt, hs, hd]
      | some c =>
        have hso := Group.hasObject_of_find? _ _ _ hs
        have hdo := Group.hasObject_of_find? _ _ _ hd
        simp only [Group.updateAt, hs, hd]
        cases pp with
        | nil =>
          simp only [Group.descend, Option.map_some', Group.childNames,
            Group.find?_store_same _ _ _ hso, hs, Option.getD_some, Group.store_names]
        | cons id rest =>
          simp only [Group.descend, Group.find?_store_same _ _ _ hso, hs]
          by_cases hid : p = id
          · subst hid
            rw [Group.find?_store_same _ _ _ hdo, hd]
            exact ih rest c
          · rw [Group.find?_store_other _ _ _ _ hid]

theorem Group.find?_removeGroup_other (g : Group) (n m : String) (h : n ≠ m) :
    (g.removeGroup n).find? m = g.find? m := by
  cases g with
  | mk a os =>
    simp only [Group.find?, Group.removeGroup, Group.objects]
    induction os with
    | nil => rfl
    | cons o os ih =>
      by_cases e : (o.1 == n) = true
      · have e1 : o.1 = n := by simpa using e
        have e2 : (o.1 == m) = false := by simpa [e1] using h
        simp [List.eraseP_cons, e, List.find?_cons, e2]
      · have e' : (o.1 == n) = false := by simpa using e
        by_cases e3 : (o.1 == m) = true
        · simp [List.eraseP_cons, e', List.find?_cons, e3]
        · have e3' : (o.1 == m) = false := by simpa using e3
          simp only [List.eraseP_cons, e', cond_false, List.find?_cons, e3']
          exact ih

/-- The group of a section after `removeSection(aid)`. -/
theorem SectionHDF5.removeSection_group (i : String) (g : Group) (aid : String) :
    ((SectionHDF5.mk i none g).removeSection aid).2.group =
      if ((g.find? "sections").getD Group.empty).hasGroup aid then
        g.store "sections" (((g.find? "sections").getD Group.empty).removeGroup aid)
      else g := by
  have hsg : (SectionHDF5.mk i none g).section_group = (g.find? "sections").getD Group.empty := rfl
  by_cases h : ((g.find? "sections").getD Group.empty).hasGroup aid = true
  · simp only [SectionHDF5.removeSection, hsg, h, if_true]; rfl
  · simp only [SectionHDF5.removeSection, hsg, h, if_false]; rfl

theorem SectionHDF5.removeSection_attrs (i : String) (g : Group) (aid : String) :
    ((SectionHDF5.mk i none g).removeSection aid).2.group.attrs = g.attrs := by
  rw [SectionHDF5.removeSection_group]
  split <;> rfl

theorem SectionHDF5.removeSection_descend (i : String) (g : Group) (aid id : String)
    (rest : List String) (h : id ≠ aid) :
    Group.descend (id :: rest) ((SectionHDF5.mk i none g).removeSection aid).2.group =
      Group.descend (id :: rest) g := by
  rw [SectionHDF5.removeSection_group]
  split
  · rename_i hhas
    cases hs : g.find? "sections" with
    | none =>
      simp [hs, Group.hasGroup, Group.hasObject, Group.empty, Group.objects] at hhas
    | some d =>
      simp only [Group.descend, Group.find?_store_same _ _ _ (Group.hasObject_of_find? _ _ _ hs),
        hs, Option.getD_some, Group.find?_removeGroup_other _ _ _ (Ne.symm h)]
  · rfl

/-- A change that keeps attributes and only unlinks the child `aid` of the
section it is applied to leaves the attributes of every section outside the
subtree of that child as they are. -/
theorem Group.attrs_updateAt (aid : String) (m : Group → Group)
    (hattrs : ∀ g, (m g).attrs = g.attrs)
    (hdesc : ∀ g id rest, id ≠ aid → Group.descend (id :: rest) (m g) = Group.descend (id :: rest) g)
    (pp ps : List String) (g : Group) (hout : ∀ rest, ps ≠ pp ++ aid :: rest) :
    (Group.descend ps (Group.updateAt m pp g)).map Group.attrs =
      (Group.descend ps g).map Group.attrs := by
  induction pp generalizing ps g with
  | nil =>
    cases ps with
    | nil => simp [Group.updateAt, Group.descend, hattrs]
    | cons id rest =>
      have hne : id ≠ aid := by
        intro e
        exact hout rest (by simp [e])
      simp only [Group.updateAt, hdesc g id rest hne]
  | cons p pp' ih =>
    cases hs : g.find? "sections" with
    | none => simp [Group.updateAt, hs]
    | some d =>
      cases hd : d.find? p with
      | none => simp [Group.updateAt, hs, hd]
      | some c =>
        have hso := Group.hasObject_of_find? _ _ _ hs
        have hdo := Group.hasObject_of_find? _ _ _ hd
        simp only [Group.updateAt, hs, hd]
        cases ps with
        | nil => simp [Group.descend, Group.store_attrs]
        | cons id rest =>
          simp only [Group.descend, Group.find?_store_same _ _ _ hso, hs]
          by_cases hid : p = id
          · subst hid
            rw [Group.find?_store_same _ _ _ hdo, hd]
            apply ih rest c
            intro r e
            exact hout r (by simp [e])
          · rw [Group.find?_store_other _ _ _ _ hid]

theorem Group.ids_eraseP (os : List (String × Group)) (aid : String)
    (h : aid ∈ os.map Prod.fst) :
    ∃ A Sub B, (Group.sectionsInList os).map Prod.fst = A ++ aid :: (Sub ++ B) ∧
      (Group.sectionsInList (os.eraseP (fun o => o.1 == aid))).map Prod.fst = A ++ B := by
  rw [List.mem_map] at h
  obtain ⟨o, ho, hoid⟩ := h
  have hp : (fun o : String × Group => o.1 == aid) o = true := by simp [hoid]
  obtain ⟨a, l1, l2, -, hpa, hsplit, herase⟩ :=
    List.exists_of_eraseP (p := fun o : String × Group => o.1 == aid) ho hp
  have ha1 : a.1 = aid := by simpa using hpa
  obtain ⟨a1, a2⟩ := a
  simp only at ha1
  subst ha1
  refine ⟨(Group.sectionsInList l1).map Prod.fst, a2.sectionsBelow.map Prod.fst,
    (Group.sectionsInList l2).map Prod.fst, ?_, ?_⟩
  · rw [hsplit, Group.sectionsInList_append]
    simp [Group.sectionsInList]
  · rw [herase, Group.sectionsInList_append]
    simp

theorem Group.ids_storeIn_removal (os : List (String × Group)) (n : String) (c c' : Group)
    (aid : String) (A Sub B : List String)
    (hf : (os.find? (fun o => o.1 == n)).map Prod.snd = some c)
    (h1 : c.sectionsBelow.map Prod.fst = A ++ aid :: (Sub ++ B))
    (h2 : c'.sectionsBelow.map Prod.fst = A ++ B) :
    ∃ A' B', (Group.sectionsInList os).map Prod.fst = A' ++ aid :: (Sub ++ B') ∧
      (Group.sectionsInList (Group.storeIn n c' os)).map Prod.fst = A' ++ B' := by
  obtain ⟨l1, l2, rfl, hl1⟩ := Group.split_of_find? os n c hf
  refine ⟨(Group.sectionsInList l1).map Prod.fst ++ n :: A,
    B ++ (Group.sectionsInList l2).map Prod.fst, ?_, ?_⟩
  · rw [Group.sectionsInList_append]
    simp [Group.sectionsInList, h1]
  · rw [Group.storeIn_split _ _ _ _ _ hl1, Group.sectionsInList_append]
    simp [Group.sectionsInList, h2]

/-- The ids of the sections below a group before and after the child `aid` of
the section at the path `pp` is unlinked: the child and the sections below it
leave the list. -/
theorem Group.ids_updateAt_removal (aid : String) (m : Group → Group)
    (hm : ∀ g sg, g.find? "sections" = some sg → sg.hasGroup aid = true →
      m g = g.store "sections" (sg.removeGroup aid))
    (pp : List String) (g gp : Group) (hd : Group.descend pp g = some gp)
    (hhas : aid ∈ gp.childNames) :
    ∃ A Sub B, g.sectionsBelow.map Prod.fst = A ++ aid :: (Sub ++ B) ∧
      (Group.updateAt m pp g).sectionsBelow.map Prod.fst = A ++ B := by
  induction pp generalizing g with
  | nil =>
    simp only [Group.descend, Option.some.injEq] at hd
    subst hd
    cases hs : g.find? "sections" with
    | none => simp [Group.childNames, hs, Group.empty, Group.names, Group.objects] at hhas
    | some sg =>
      simp only [Group.childNames, hs, Option.getD_some] at hhas
      have hhg : sg.hasGroup aid = true := (Group.hasObject_iff sg aid).2 hhas
      obtain ⟨A, Sub, B, h1, h2⟩ := Group.ids_eraseP sg.objects aid hhas
      refine ⟨A, Sub, B, ?_, ?_⟩
      · rw [Group.sectionsBelow_of_find? g sg hs, Group.sectionsIn_eq]; exact h1
      · simp only [Group.updateAt, hm g sg hs hhg]
        rw [Group.sectionsBelow_store _ _ (Group.hasObject_of_find? _ _ _ hs), Group.sectionsIn_eq]
        exact h2
  | cons p pp' ih =>
    cases hs : g.find? "sections" with
    | none => simp [Group.descend, hs] at hd
    | some d =>
      cases hdp : d.find? p with
      | none => simp [Group.descend, hs, hdp] at hd
      | some c =>
        simp only [Group.descend, hs, hdp] at hd
        obtain ⟨A, Sub, B, h1, h2⟩ := ih c hd
        obtain ⟨A', B', h3, h4⟩ := Group.ids_storeIn_removal d.objects p c
          (Group.updateAt m pp' c) aid A Sub B hdp h1 h2
        refine ⟨A', Sub, B', ?_, ?_⟩
        · rw [Group.sectionsBelow_of_find? g d hs, Group.sectionsIn_eq]; exact h3
        · simp only [Group.updateAt, hs, hdp]
          rw [Group.sectionsBelow_store _ _ (Group.hasObject_of_find? _ _ _ hs),
            Group.sectionsIn_eq]
          exact h4

theorem Group.getAttr_congr (g g' : Group) (h : g'.attrs = g.attrs) (n : String) :
    g'.getAttr n = g.getAttr n := by
  simp [Group.getAttr, h]

theorem File.findSections_ids (file : File) :
    (file.findSections (fun _ => true)).map SectionHDF5.id = file.metadata.sectionsIn.map Prod.fst := by
  rw [File.findSections_all, List.map_map]
  rfl

/-- C5 as stated fails: in `collisionFile` the root section `section_r` is linked
to the child `section_a` of the root section `section_q`; after that child is
removed, the link of `section_r` resolves to the child of `section_r` that
carries the same id. -/
theorem link_dangling_counterexample :
    ¬ (∀ (file : File) (ps pp : List String) (a s p : SectionHDF5),
        file.sectionAt ps = some s → file.sectionAt pp = some p → p.hasSection a.id = true →
        (∀ rest, ps ≠ pp ++ a.id :: rest) →
        ∀ s2, ((file.call (fun x => x.setLink (some a)) ps).call
            (fun x => (x.removeSection a.id).2) pp).sectionAt ps = some s2 →
          s2.link ((file.call (fun x => x.setLink (some a)) ps).call
            (fun x => (x.removeSection a.id).2) pp) = none) := by
  intro h
  have h1 := h collisionFile ["section_r"] ["section_q"]
    (SectionHDF5.mk "section_a" none emptySectionGroup) _ _ rfl rfl (by decide)
    (by intro rest e; simp at e) _ rfl
  exact absurd (congrArg Option.isSome h1) (by decide)

/-- C5 (amended): in every file, for a section `s` (at the path `ps`) and a
child `a` of a section `p` (at the path `pp`) such that `s` is not inside the
subtree of `a`: after `s.link(a)` and then `p.removeSection(a.id())`, the
section `s` is still there, its attribute `link` still holds the id of `a`, and
`s.link()` returns, without raising, the empty handle exactly when no section
that is left in the file carries the id of `a` (or that id is empty); this is
the case whenever the ids of the sections of the file were pairwise distinct. -/
theorem link_after_target_removed (file : File) (ps pp : List String) (a s p : SectionHDF5)
    (hs : file.sectionAt ps = some s) (hp : file.sectionAt pp = some p)
    (ha : p.hasSection a.id = true) (hout : ∀ rest, ps ≠ pp ++ a.id :: rest) :
    ∃ s2, ((file.call (fun x => x.setLink (some a)) ps).call
        (fun x => (x.removeSection a.id).2) pp).sectionAt ps = some s2 ∧
      s2.group.getAttr "link" = some a.id ∧
      (s2.link ((file.call (fun x => x.setLink (some a)) ps).call
          (fun x => (x.removeSection a.id).2) pp) = none ↔
        (a.id = "" ∨ ∀ x ∈ ((file.call (fun x => x.setLink (some a)) ps).call
          (fun x => (x.removeSection a.id).2) pp).findSections (fun _ => true), x.id ≠ a.id)) ∧
      (((file.findSections (fun _ => true)).map SectionHDF5.id).Nodup →
        s2.link ((file.call (fun x => x.setLink (some a)) ps).call
          (fun x => (x.removeSection a.id).2) pp) = none) := by
  -- the groups of `s` and `p` in the file
  obtain ⟨g0, hg0⟩ : ∃ g0, file.groupAt ps = some g0 := by
    simp only [File.sectionAt, Option.map_eq_some'] at hs
    obtain ⟨g0, h0, -⟩ := hs
    exact ⟨g0, h0⟩
  obtain ⟨gp, hgp, hpeq⟩ : ∃ gp, file.groupAt pp = some gp ∧
      p = SectionHDF5.mk (pp.getLastD "") none gp := by
    simp only [File.sectionAt, Option.map_eq_some'] at hp
    obtain ⟨gp, h0, h1⟩ := hp
    exact ⟨gp, h0, h1.symm⟩
  obtain ⟨i0, r0, rfl⟩ : ∃ i0 r0, ps = i0 :: r0 := by
    cases ps with
    | nil => simp [File.groupAt] at hg0
    | cons i0 r0 => exact ⟨i0, r0, rfl⟩
  obtain ⟨p0, q0, rfl⟩ : ∃ p0 q0, pp = p0 :: q0 := by
    cases pp with
    | nil => simp [File.groupAt] at hgp
    | cons p0 q0 => exact ⟨p0, q0, rfl⟩
  have hchild : a.id ∈ gp.childNames := by
    rw [hpeq] at ha
    exact (Group.hasObject_iff _ _).1 ha
  -- the file after the link is set
  have h1at : (file.call (fun x => x.setLink (some a)) (i0 :: r0)).groupAt (i0 :: r0) =
      some (g0.setAttr "link" a.id) := by
    rw [File.groupAt_call, hg0]; rfl
  have h1p : (Group.descend (p0 :: q0)
      (file.call (fun x => x.setLink (some a)) (i0 :: r0)).root).map Group.childNames =
      some gp.childNames := by
    rw [File.root_call, Group.childNames_updateAt _
        (fun x => SectionHDF5.setLink_objects (SectionHDF5.mk ((i0 :: r0).getLastD "") none x)
          (some a)),
      ← File.groupAt_eq_descend, hgp]
    rfl
  obtain ⟨gp1, hgp1, hnames1⟩ : ∃ gp1, Group.descend (p0 :: q0)
      (file.call (fun x => x.setLink (some a)) (i0 :: r0)).root = some gp1 ∧
      gp1.childNames = gp.childNames := by
    rw [Option.map_eq_some'] at h1p
    exact h1p
  -- the file after the removal
  have h2root := File.root_call (file.call (fun x => x.setLink (some a)) (i0 :: r0))
    (fun x => (x.removeSection a.id).2) p0 q0
  have h2at : (((file.call (fun x => x.setLink (some a)) (i0 :: r0)).call
      (fun x => (x.removeSection a.id).2) (p0 :: q0)).groupAt (i0 :: r0)).map Group.attrs =
      some (g0.setAttr "link" a.id).attrs := by
    rw [File.groupAt_eq_descend, h2root,
      Group.attrs_updateAt a.id _ (fun g => SectionHDF5.removeSection_attrs _ g a.id)
        (fun g id rest hne => SectionHDF5.removeSection_descend _ g a.id id rest hne)
        (p0 :: q0) (i0 :: r0) _ hout,
      ← File.groupAt_eq_descend, h1at]
    rfl
  obtain ⟨g2, hg2, hattrs2⟩ : ∃ g2, ((file.call (fun x => x.setLink (some a)) (i0 :: r0)).call
      (fun x => (x.removeSection a.id).2) (p0 :: q0)).groupAt (i0 :: r0) = some g2 ∧
      g2.attrs = (g0.setAttr "link" a.id).attrs := by
    rw [Option.map_eq_some'] at h2at
    exact h2at
  have hlink2 : g2.getAttr "link" = some a.id := by
    rw [Group.getAttr_congr _ _ hattrs2, Group.getAttr_setAttr_same]
  have hempty2 : (SectionHDF5.mk ((i0 :: r0).getLastD "") none g2).group.getAttrOrEmpty "link" =
      a.id := by
    show g2.getAttrOrEmpty "link" = a.id
    simp [Group.getAttrOrEmpty, hlink2]
  have hiff : (SectionHDF5.mk ((i0 :: r0).getLastD "") none g2).link
        ((file.call (fun x => x.setLink (some a)) (i0 :: r0)).call
          (fun x => (x.removeSection a.id).2) (p0 :: q0)) = none ↔
      (a.id = "" ∨ ∀ x ∈ ((file.call (fun x => x.setLink (some a)) (i0 :: r0)).call
          (fun x => (x.removeSection a.id).2) (p0 :: q0)).findSections (fun _ => true),
        x.id ≠ a.id) := by
    rw [SectionHDF5.link_eq, hempty2]
    by_cases he : a.id = ""
    · simp [he]
    · simp only [bne_iff_ne, ne_eq, he, not_false_eq_true, if_true, false_or,
        List.find?_eq_none, beq_iff_eq]
      constructor
      · intro h x hx e
        exact h x hx e.symm
      · intro h x hx e
        exact h x hx e.symm
  refine ⟨SectionHDF5.mk ((i0 :: r0).getLastD "") none g2, ?_, hlink2, hiff, ?_⟩
  · simp only [File.sectionAt, hg2, Option.map_some']
  · intro hnd
    rw [hiff]
    right
    have hids1 := File.ids_call file (fun x => x.setLink (some a))
      (fun x => SectionHDF5.setLink_objects x (some a)) (i0 :: r0)
    obtain ⟨A, Sub, B, hA, hB⟩ := Group.ids_updateAt_removal a.id
      (fun x => ((SectionHDF5.mk ((p0 :: q0).getLastD "") none x).removeSection a.id).2.group)
      (by
        intro g sg hsg hhas
        simp only [SectionHDF5.removeSection_group, hsg, Option.getD_some, hhas, if_true])
      (p0 :: q0) _ gp1 hgp1 (by rw [hnames1]; exact hchild)
    rw [← h2root, File.sectionsBelow_root] at hB
    rw [File.sectionsBelow_root, hids1, ← File.findSections_ids] at hA
    rw [hA] at hnd
    intro x hx hxid
    have hxin : x.id ∈ (((file.call (fun x => x.setLink (some a)) (i0 :: r0)).call
        (fun x => (x.removeSection a.id).2) (p0 :: q0)).findSections (fun _ => true)).map
        SectionHDF5.id := List.mem_map_of_mem _ hx
    rw [File.findSections_ids, hB, hxid] at hxin
    rw [List.nodup_append] at hnd
    obtain ⟨-, hnd2, hdisj⟩ := hnd
    rcases List.mem_append.1 hxin with hin | hin
    · exact hdisj hin (List.mem_cons_self _ _)
    · simp only [List.nodup_cons, List.mem_append, not_or] at hnd2
      rcases List.mem_append.1 (List.mem_append_right Sub hin) with h' | h'
      · exact hnd2.1.1 h'
      · exact hnd2.1.2 h'

/-- Witness of C5 (amended) on the sample file, whose section ids are pairwise
distinct: the root section `section_q` is linked to the child `section_b` of
the root section `section_r`, which is then removed. -/
theorem link_after_target_removed_witness :
    ∃ s2, ((sampleFile.call (fun x => x.setLink (some (SectionHDF5.mk "section_b" none
          emptySectionGroup))) ["section_q"]).call
          (fun x => (x.removeSection "section_b").2) ["section_r"]).sectionAt ["section_q"] =
        some s2 ∧
      s2.group.getAttr "link" = some "section_b" ∧
      s2.link ((sampleFile.call (fun x => x.setLink (some (SectionHDF5.mk "section_b" none
          emptySectionGroup))) ["section_q"]).call
          (fun x => (x.removeSection "section_b").2) ["section_r"]) = none := by
  obtain ⟨s2, h1, h2, -, h4⟩ := link_after_target_removed sampleFile ["section_q"] ["section_r"]
    (SectionHDF5.mk "section_b" none emptySectionGroup) _ _ rfl rfl (by decide)
    (by intro rest e; simp at e)
  exact ⟨s2, h1, h2, h4 (by decide)⟩

/-! ## C11: a row written to a data frame is read back -/

namespace DataFrameHDF5

theorem typesMatch_of_forall₂ (v : List Variant) (cols : List Column)
    (h : List.Forall₂ (fun x c => x.type = c.dtype) v cols) : typesMatch v cols = true := by
  induction h with
  | nil => rfl
  | cons hxc _ ih =>
    simp only [typesMatch, List.zip_cons_cons, List.all_cons, Bool.and_eq_true, beq_iff_eq]
    exact ⟨hxc, ih⟩

/-- The backing store of a data frame after `createData` or `rows(n)` has
exactly `rows()` rows, and `writeRow` keeps it so. -/
theorem createData_length (df : DataFrameHDF5) (cols : List Column) :
    (df.createData cols).dataset.length = (df.createData cols).rows := rfl

theorem setRows_length (df : DataFrameHDF5) (n : Nat) :
    (df.setRows n).dataset.length = (df.setRows n).rows := by
  simp only [setRows, rows, List.length_append, List.length_take, List.length_replicate]
  omega

theorem writeRow_length (df df' : DataFrameHDF5) (row : Nat) (v : List Variant)
    (h : df.dataset.length = df.rows) (hw : df.writeRow row v = .ok df') :
    df'.dataset.length = df'.rows ∧ df'.columns = df.columns ∧ df'.rows = df.rows := by
  simp only [writeRow] at hw
  split at hw
  · cases hw
  · split at hw
    · cases hw
    · split at hw
      · cases hw
        refine ⟨?_, rfl, rfl⟩
        show (df.dataset.set row v).length = df.row_count
        rw [List.length_set]
        exact h
      · cases hw

theorem nameToCol_lt (df : DataFrameHDF5) (names : List String) (is : List Nat)
    (h : df.nameToCol names = .ok is) : ∀ i ∈ is, i < df.cols.length := by
  induction names generalizing is with
  | nil =>
    simp only [nameToCol, Except.ok.injEq] at h
    subst h
    intro i hi
    exact absurd hi (List.not_mem_nil i)
  | cons name rest ih =>
    simp only [nameToCol] at h
    cases hf : List.findIdx? (fun c => c.name == name) df.cols with
    | none => simp [hf] at h
    | some k =>
      cases hr : df.nameToCol rest with
      | error e => simp [hf, hr] at h
      | ok js =>
        simp only [hf, hr, Except.ok.injEq] at h
        subst h
        intro i hi
        rcases List.mem_cons.1 hi with rfl | hi
        · obtain ⟨hlt, -⟩ := List.findIdx?_eq_some_iff_getElem.1 hf
          exact hlt
        · exact ih js hr i hi

theorem pick_ok (r : List Variant) (is : List Nat) (h : ∀ i ∈ is, i < r.length) :
    ∃ out, pick r is = .ok out ∧ out.map some = is.map r.get? := by
  induction is with
  | nil => exact ⟨[], rfl, rfl⟩
  | cons i rest ih =>
    obtain ⟨out, hout, hmap⟩ := ih (fun j hj => h j (List.mem_cons_of_mem _ hj))
    have hi : i < r.length := h i (List.mem_cons_self _ _)
    have hget : r.get? i = some (r[i]) := by
      simp [List.get?_eq_getElem?, List.getElem?_eq_getElem hi]
    refine ⟨r[i] :: out, ?_, ?_⟩
    · simp only [pick, hget, hout]
    · simp only [List.map_cons, hget, hmap]

end DataFrameHDF5

/-- C11: for every data frame (any schema) whose backing store has `rows()`
rows, as it has after `createData`, `rows(n)` and `writeRow`, for every row
index `r < rows()` and every value list `v` that matches the columns in length
and, position by position, in type: `writeRow(r, v)` succeeds and keeps the
schema and the row count; afterwards `readRow(r)` returns `v`, and for every
list of names, `readCells(r, names)` returns the values of `v` at the positions
`nameToCol(names)`, in the order of the names, and fails the way `nameToCol`
fails for an unknown name. -/
theorem dataframe_row_round_trip (df : DataFrameHDF5) (hsize : df.dataset.length = df.rows)
    (r : Nat) (hr : r < df.rows) (v : List Variant)
    (hmatch : List.Forall₂ (fun x c => x.type = c.dtype) v df.columns) :
    ∃ df', df.writeRow r v = .ok df' ∧ df'.columns = df.columns ∧ df'.rows = df.rows ∧
      df'.readRow r = .ok v ∧
      ∀ names,
        (∀ is, df'.nameToCol names = .ok is →
          ∃ out, df'.readCells r names = .ok out ∧ out.map some = is.map v.get?) ∧
        (∀ e, df'.nameToCol names = .error e → df'.readCells r names = .error e) := by
  have hlen : v.length = df.cols.length := hmatch.length_eq
  have htypes := DataFrameHDF5.typesMatch_of_forall₂ v df.cols hmatch
  have hnot : ¬ r ≥ df.rows := by omega
  have hw : df.writeRow r v =
      .ok (DataFrameHDF5.mk df.cols df.row_count (df.dataset.set r v)) := by
    simp only [DataFrameHDF5.writeRow, hnot, if_false, hlen, ne_eq, not_true_eq_false, htypes,
      if_true]
  have hrd : (DataFrameHDF5.mk df.cols df.row_count (df.dataset.set r v)).readRow r = .ok v := by
    have hr' : r < df.dataset.length := by rw [hsize]; exact hr
    have hget : (df.dataset.set r v).get? r = some v := by
      rw [List.get?_eq_getElem?, List.getElem?_set_self hr']
    have hnot' : ¬ r ≥ (DataFrameHDF5.mk df.cols df.row_count (df.dataset.set r v)).rows := hnot
    simp only [DataFrameHDF5.readRow, hnot', if_false, hget]
  refine ⟨_, hw, rfl, rfl, hrd, ?_⟩
  intro names
  constructor
  · intro is his
    have hlt := DataFrameHDF5.nameToCol_lt _ names is his
    obtain ⟨out, hout, hmap⟩ := DataFrameHDF5.pick_ok v is (fun i hi => by
      rw [hlen]; exact hlt i hi)
    exact ⟨out, by simp only [DataFrameHDF5.readCells, hrd, his, hout], hmap⟩
  · intro e he
    simp only [DataFrameHDF5.readCells, hrd, he]

/-- Witness of C11: the schema `[("t", float64), ("amp", int32)]`, `rows(3)`,
`writeRow(1, [2.5, 7])`; then `readRow(1)` is `[2.5, 7]` and
`readCells(1, ["amp"])` is `[7]`. -/
theorem dataframe_row_round_trip_witness :
    (∃ df', sampleFrame.writeRow 1 sampleRow = .ok df' ∧ df'.columns = sampleFrame.columns ∧
      df'.rows = sampleFrame.rows ∧ df'.readRow 1 = .ok sampleRow ∧
      ∀ names,
        (∀ is, df'.nameToCol names = .ok is →
          ∃ out, df'.readCells 1 names = .ok out ∧ out.map some = is.map sampleRow.get?) ∧
        (∀ e, df'.nameToCol names = .error e → df'.readCells 1 names = .error e)) ∧
    sampleFrame.rows = 3 ∧
    (match sampleFrame.writeRow 1 sampleRow with
      | .ok df' => df'.readCells 1 ["amp"]
      | .error e => .error e) = .ok [Variant.int32 7] :=
  ⟨dataframe_row_round_trip sampleFrame (by decide) 1 (by decide) sampleRow
      (List.Forall₂.cons rfl (List.Forall₂.cons rfl List.Forall₂.nil)),
    by decide, by rfl⟩

end nix.hdf5

namespace nix.base

/-! ## C12: getEntities is an order-preserving filter -/

theorem ImplContainer.getEntitiesLoop_eq {α : Type} (getEntity : Nat → Option α)
    (filter : Option α → Bool) (n i : Nat) (entities : List (Option α)) :
    ImplContainer.getEntitiesLoop getEntity filter n i entities =
      entities ++ ((List.range' i n).map getEntity).filter (fun c => c.isSome && filter c) := by
  induction n generalizing i entities with
  | zero => simp [ImplContainer.getEntitiesLoop]
  | succ n ih =>
    simp only [ImplContainer.getEntitiesLoop, List.range'_succ, List.map_cons, List.filter_cons]
    split
    · rw [ih]; simp
    · rw [ih]

/-- C12: for every getter `getEntity`, every count `nT` and every filter, the
vector that `getEntities` returns is the sequence `getEntity(0), ..,
getEntity(nT-1)`, in increasing index, restricted to the handles that are not
empty and pass the filter; it is empty for `nT = 0`, its length is at most
`nT`, every element is a non-empty handle that passes the filter, and with the
always-true filter it is the sequence of all non-empty handles. -/
theorem getEntities_is_filter {α : Type} (getEntity : Nat → Option α) (nT : Nat)
    (filter : Option α → Bool) :
    ImplContainer.getEntities getEntity nT filter =
        ((List.range nT).map getEntity).filter (fun c => c.isSome && filter c) ∧
      ImplContainer.getEntities getEntity 0 filter = [] ∧
      (ImplContainer.getEntities getEntity nT filter).length ≤ nT ∧
      (∀ c ∈ ImplContainer.getEntities getEntity nT filter, c.isSome = true ∧ filter c = true) ∧
      ImplContainer.getEntities getEntity nT (fun _ => true) =
        ((List.range nT).map getEntity).filter Option.isSome := by
  have key : ∀ (f : Option α → Bool), ImplContainer.getEntities getEntity nT f =
      ((List.range nT).map getEntity).filter (fun c => c.isSome && f c) := by
    intro f
    simp only [ImplContainer.getEntities]
    split
    · have h0 : nT = 0 := by omega
      subst h0
      rfl
    · rw [ImplContainer.getEntitiesLoop_eq, List.range_eq_range']
      simp
  refine ⟨key filter, rfl, ?_, ?_, ?_⟩
  · rw [key filter]
    calc (List.filter (fun c => c.isSome && filter c) ((List.range nT).map getEntity)).length
        ≤ ((List.range nT).map getEntity).length := List.length_filter_le _ _
      _ = nT := by simp
  · intro c hc
    rw [key filter, List.mem_filter] at hc
    simpa using hc.2
  · rw [key (fun _ => true)]
    simp

end nix.base
